import Mathlib

/-!
Shallow embedding of the core of the xssp sources (`src/mas.cpp`,
`src/hssp-convert-3to1.cpp`, `src/matrix.h`) in Lean 4, together with
theorems settling the specification claims about them.

Modelling conventions:
* C++ `float`/`double` values are modelled as exact rationals (`ℚ`).
* Machine integers are modelled as `Nat`/`Int`; the one place where an
  unsigned narrowing conversion matters (`uint8 rq = kResidueIX[...]` in
  `seq::seq_impl::update`) it is made explicit with `% 256`.
* Fallible code (`THROW`, failing `assert`) is modelled with `Except`/`Option`.
* The substitution-matrix *data* (GONNET250 and the family used by the
  profile aligner) and the residue lookup tables live outside the given
  sources; they are taken as parameters, or modelled from the spec where
  the spec fixes them (see the doc comments of the individual definitions).
-/

namespace Xssp

/-- Pointwise update of a function on pairs; used to model in-place writes
to the DP matrices (`matrix<T>` cells) of `mas.cpp`. -/
def upd {α : Type} (f : Nat × Nat → α) (p : Nat × Nat) (v : α) : Nat × Nat → α :=
  fun q => if q = p then v else f q

/-! ### hssp-convert-3to1.cpp : residue alphabet -/

namespace Hssp

/-- Modelled from the spec: the residue-index table `kResidueIX` is declared
outside the given sources.  Per spec §3 a process-wide map resolves any ASCII
letter of the fixed 20-letter alphabet (upper or lower case) to a residue
index in `[0,20)`, the gap-equivalent characters `-`, `.`, `*`, `~`, `_` and
space to the gap index, and anything else is a validation failure.  The
residue order is the profile column order of spec §6
(`V L I M F W Y G A P S T C H R K Q E N D`).  Gap is encoded `-2` and
failure `-1`, matching the uses in the source (`is_gap` tests `== -2`,
the validation tests `== -1`, valid indices are `>= 0`). -/
def kResidueLetters : List Char :=
  ['V', 'L', 'I', 'M', 'F', 'W', 'Y', 'G', 'A', 'P',
   'S', 'T', 'C', 'H', 'R', 'K', 'Q', 'E', 'N', 'D']

/-- Modelled from the spec: see `kResidueLetters`. -/
def kResidueIX (c : Char) : Int :=
  match kResidueLetters.indexOf? c.toUpper with
  | some i => (i : Int)
  | none => if c ∈ ['-', '.', '*', '~', '_', ' '] then -2 else -1

/-- `is_gap` from hssp-convert-3to1.cpp: a character is a gap iff its
residue index is `-2`. -/
def is_gap (c : Char) : Bool := kResidueIX c == -2

/-! ### hssp-convert-3to1.cpp : seq_impl and cut -/

/-- The fields of `seq::seq_impl` relevant to `cut`: the character view
(`m_seq`/`m_size`) and the alignment window `m_begin`/`m_end`. -/
structure HSeq where
  chars : List Char
  abegin : Nat
  aend : Nat
deriving Repr, DecidableEq

/-- `seq::seq_impl::cut(pos, n)`: advance the view by `pos` characters and
truncate it to `n`; shift `m_begin`/`m_end` down by `pos` (clamping at 0)
and clamp `m_end` to the new size `n`. -/
def cut (s : HSeq) (pos n : Nat) : HSeq :=
  let chars := (s.chars.drop pos).take n
  let b := if s.abegin > pos then s.abegin - pos else 0
  let e0 := if s.aend > pos then s.aend - pos else 0
  let e := if e0 > n then n else e0
  ⟨chars, b, e⟩

/-! ### hssp-convert-3to1.cpp : seq_impl::update (the MSA-to-hit reducer) -/

/-- Sentinel for an unset `m_begin` (`numeric_limits<uint32>::max()`). -/
def kUInt32Max : Nat := 4294967295

/-- The mutable state of `seq::seq_impl::update`: the loop locals
(`ipos`, `jpos`, `sgapf`, `qgapf`, `gapn`, `gaps`, `length`, the current
insertion record `ins`) together with the member statistics it updates and
the subject character array `m_seq` (mutated in place by the `tolower`
writes).  `score` is `m_identical / m_length` computed at the end. -/
structure UpdState where
  ipos : Nat
  jpos : Nat
  sgapf : Bool
  qgapf : Bool
  gapn : Nat
  gaps : Nat
  ifir : Nat
  ilas : Nat
  identical : Nat
  similar : Nat
  mgapn : Nat
  mgaps : Nat
  mlength : Nat
  abegin : Nat
  aend : Nat
  insertions : List (Nat × Nat × List Char)
  curIns : Nat × Nat × List Char
  runlen : Nat
  subj : List Char
  score : ℚ
deriving Repr

/-- The backward scan `iterator gsi = si - 1; while (gsi != begin() and
is_gap(*gsi)) --gsi;` as an index computation (the C++ stops at `begin()`
even if that character is a gap; starting the scan at column 0 is undefined
in the C++ and clamps to 0 here). -/
def gsiScan (s : List Char) : Nat → Nat
  | 0 => 0
  | k + 1 => if is_gap (s.getD (k + 1) ' ') then gsiScan s k else k + 1

/-- The tail of one loop iteration of `seq_impl::update` shared by the
query-gap and the residue-residue branches: identity counting, the residue
validation, similarity counting, and the `m_begin`/`m_end` updates.  The
narrowing `uint8 rq = kResidueIX[...]` is modelled by `% 256`, after which
the source compares the *unsigned* value against `-1`. -/
def updTail (kD : Nat → Nat → ℚ) (qc : Char) (i : Nat) (st : UpdState) :
    Except String UpdState :=
  let sc := st.subj.getD i ' '
  let st : UpdState := if qc = sc then { st with identical := st.identical + 1 } else st
  let rq : Int := (kResidueIX qc) % 256
  if rq == -1 then
    .error ("Invalid letter in query sequence (" ++ qc.toString ++ ")")
  else
    let rs : Int := (kResidueIX sc) % 256
    if rs == -1 then
      .error ("Invalid letter in query sequence (" ++ sc.toString ++ ")")
    else
      let st : UpdState := if 0 ≤ rq ∧ 0 ≤ rs ∧ 0 ≤ kD rq.toNat rs.toNat then
          { st with similar := st.similar + 1 } else st
      let st : UpdState := if st.abegin = kUInt32Max then { st with abegin := i } else st
      .ok { st with aend := i + 1 }

/-- One iteration of the column loop of `seq_impl::update`, for query
character `qc` at column `i`. -/
def updStep (kD : Nat → Nat → ℚ) (qc : Char) (i : Nat) (st : UpdState) :
    Except String UpdState :=
  let sc := st.subj.getD i ' '
  let qgap := is_gap qc
  let sgap := is_gap sc
  if qgap ∧ sgap then .ok st
  else
    let st : UpdState := if 0 < st.runlen then { st with runlen := st.runlen + 1 } else st
    if sgap then
      .ok { st with
        gaps := if ¬(st.sgapf ∨ st.qgapf) then st.gaps + 1 else st.gaps
        sgapf := true
        gapn := st.gapn + 1
        ipos := st.ipos + 1 }
    else if qgap then
      let st : UpdState :=
        if ¬ st.qgapf then
          let g := gsiScan st.subj (i - 1)
          let lc := (st.subj.getD g ' ').toLower
          { st with subj := st.subj.set g lc, curIns := (st.ipos, st.jpos, [lc]) }
        else st
      let st : UpdState := { st with
        curIns := (st.curIns.1, st.curIns.2.1, st.curIns.2.2 ++ [st.subj.getD i ' ']) }
      let st : UpdState := if ¬(st.sgapf ∨ st.qgapf) then { st with gaps := st.gaps + 1 } else st
      let st : UpdState := { st with qgapf := true, gapn := st.gapn + 1, jpos := st.jpos + 1 }
      updTail kD qc i st
    else
      let st : UpdState :=
        if st.qgapf then
          let lc := (st.subj.getD i ' ').toLower
          let st := { st with subj := st.subj.set i lc }
          let st := { st with
            curIns := (st.curIns.1, st.curIns.2.1, st.curIns.2.2 ++ [lc]) }
          { st with insertions := st.insertions ++ [st.curIns] }
        else st
      let st : UpdState := { st with sgapf := false, qgapf := false, ilas := st.ipos }
      let st : UpdState :=
        if st.ifir = 0 then { st with ifir := st.ipos, runlen := 1 }
        else { st with
          mgapn := st.mgapn + st.gapn
          mgaps := st.mgaps + st.gaps
          mlength := st.runlen }
      let st : UpdState := { st with gaps := 0, gapn := 0, ipos := st.ipos + 1, jpos := st.jpos + 1 }
      updTail kD qc i st

/-- The column loop of `seq_impl::update` over the query characters. -/
def updLoop (kD : Nat → Nat → ℚ) : List Char → Nat → UpdState → Except String UpdState
  | [], _, st => .ok st
  | qc :: qs, i, st =>
    match updStep kD qc i st with
    | .error e => .error e
    | .ok st' => updLoop kD qs (i + 1) st'

/-- The member-reset prologue and initial loop locals of
`seq::seq_impl::update`. -/
def updInit (subj : List Char) (jfir : Nat) : UpdState :=
  { ipos := 1, jpos := if jfir = 0 then 1 else jfir
    sgapf := false, qgapf := false, gapn := 0, gaps := 0
    ifir := 0, ilas := 0, identical := 0, similar := 0
    mgapn := 0, mgaps := 0, mlength := 0
    abegin := kUInt32Max, aend := 0
    insertions := [], curIns := (0, 0, []), runlen := 0
    subj := subj, score := 0 }

/-- `seq::seq_impl::update(qseq)` for a subject with characters `subj` and
`m_jfir = jfir`, against query characters `qseq`.  The distance-matrix
object `kD` consulted by the similarity test is external data and is a
parameter.  Returns the final state (or the fatal error, were the residue
validation ever to fire). -/
def update (kD : Nat → Nat → ℚ) (qseq subj : List Char) (jfir : Nat) :
    Except String UpdState :=
  match updLoop kD qseq 0 (updInit subj jfir) with
  | .error e => .error e
  | .ok st =>
    let st : UpdState :=
      if st.abegin = kUInt32Max then { st with abegin := 0, aend := 0 }
      else { st with subj := st.subj.mapIdx (fun j c =>
          if j < st.abegin ∨ st.aend ≤ j then ' '
          else if is_gap c then '.' else c) }
    .ok { st with score := (st.identical : ℚ) / (st.mlength : ℚ) }

/-! ### hssp-convert-3to1.cpp : ResidueHInfo::CalculateVariability -/

/-- The fields of a `Hit` consulted by `CalculateVariability`: the chain
tag, the hit row `m_seq` (with its alignment window) and the query row
`m_qseq`. -/
structure VHit where
  chain : Char
  hseq : List Char
  habegin : Nat
  haend : Nat
  qseq : List Char
deriving Repr, DecidableEq

/-- The fields of `ResidueHInfo` that `CalculateVariability` reads and
writes.  The entropy accumulator is omitted: it is a transcendental
(`log`) quantity with no claim about it here. -/
structure ResInfo where
  letter : Char
  chain : Char
  pos : Nat
  nocc : Nat
  ndel : Nat
  nins : Nat
  dist : List Nat
deriving Repr, DecidableEq

/-- `ResidueHInfo::CalculateVariability(hits)`: zero the 20 `dist` buckets,
seed the bucket of the query letter, count every same-chain hit whose
column residue has a valid index into `nocc` and its bucket, convert the
buckets to percentages rounded to nearest (`uint32(100.0 * freq + 0.5)`),
then count `ndel` and `nins`.  When the query letter has no valid index,
everything after the zeroing is skipped, exactly as in the source. -/
def CalculateVariability (r : ResInfo) (hits : List VHit) : ResInfo :=
  if hits.isEmpty then r
  else
    let r := { r with dist := List.replicate 20 0 }
    let ix := kResidueIX r.letter
    if 0 ≤ ix then
      let r := { r with dist := r.dist.set ix.toNat 1 }
      let r := hits.foldl (fun r hit =>
        if hit.chain ≠ r.chain then r
        else
          let ix2 := kResidueIX (hit.hseq.getD r.pos ' ')
          if 0 ≤ ix2 then
            { r with
              nocc := r.nocc + 1
              dist := r.dist.set ix2.toNat (r.dist.getD ix2.toNat 0 + 1) }
          else r) r
      let r := { r with dist := r.dist.map (fun d : Nat =>
          (Rat.floor ((100 : ℚ) * ((d : ℚ) / (r.nocc : ℚ)) + 1/2)).toNat) }
      let q := (hits.headD ⟨' ', [], 0, 0, []⟩).qseq
      let gap : Bool := decide (r.pos + 1 < q.length) && is_gap (q.getD (r.pos + 1) ' ')
      hits.foldl (fun r hit =>
        if hit.chain ≠ r.chain then r
        else
          let tc := hit.hseq.getD r.pos ' '
          let r := if hit.habegin < r.pos ∧ r.pos < hit.haend ∧ is_gap tc then
              { r with ndel := r.ndel + 1 } else r
          if gap ∧ 'a' ≤ tc ∧ tc ≤ 'y' then { r with nins := r.nins + 1 } else r) r
    else r

/-! ### hssp-convert-3to1.cpp : CalculateConservation -/

/-- The fields of a sequence row consulted by the conservation pass. -/
structure CSeq where
  chars : List Char
  abegin : Nat
  aend : Nat
  pruned : Bool
deriving Repr, DecidableEq

/-- Default row for `getD` accesses. -/
def defCSeq : CSeq := ⟨[], 0, 0, false⟩

/-- `numeric_limits<float>::min()`, the "missing column" sentinel of the
conservation worker (the smallest positive normal single-precision float). -/
def kFltMin : ℚ := 1 / 2 ^ 126

/-- One pair `(s_i, s_j)` of the conservation worker: over the overlap
window, record `simval` for columns where both residues are non-gap (the
sentinel `kFltMin` when an index is invalid), count `len` and `agr`, then
when `len > 0` accumulate `distance * simval[k]` into `sumvar[k]` and
`distance * 1.5` into `sumdist[k]` for every column of the window whose
`simval[k]` differs from the sentinel.  `simval` persists from pair to
pair exactly as the worker's vector does in the source. -/
def consPair (kD : Nat → Nat → ℚ) (si sj : CSeq)
    (st : List ℚ × List ℚ × List ℚ) : List ℚ × List ℚ × List ℚ :=
  let simval := st.1
  let sumvar := st.2.1
  let sumdist := st.2.2
  let b := max si.abegin sj.abegin
  let e := min si.aend sj.aend
  let r1 := (List.range' b (e - b)).foldl (fun (acc : List ℚ × Nat × Nat) k =>
    let ci := si.chars.getD k ' '
    let cj := sj.chars.getD k ' '
    if ¬ is_gap ci ∧ ¬ is_gap cj then
      let len := acc.2.1 + 1
      let agr := if ci = cj then acc.2.2 + 1 else acc.2.2
      let ri := kResidueIX ci
      let rj := kResidueIX cj
      (acc.1.set k (if 0 ≤ ri ∧ 0 ≤ rj then kD ri.toNat rj.toNat else kFltMin),
       len, agr)
    else acc) (simval, 0, 0)
  let simval := r1.1
  let len := r1.2.1
  let agr := r1.2.2
  if 0 < len then
    let distance : ℚ := 1 - (agr : ℚ) / (len : ℚ)
    let r2 := (List.range' b (e - b)).foldl (fun (acc : List ℚ × List ℚ) k =>
      if simval.getD k 0 ≠ kFltMin then
        (acc.1.set k (acc.1.getD k 0 + distance * simval.getD k 0),
         acc.2.set k (acc.2.getD k 0 + distance * (3/2)))
      else acc) (sumvar, sumdist)
    (simval, r2.1, r2.2)
  else (simval, sumvar, sumdist)

/-- The conservation pass (single-worker semantics; with several workers
each has its own `simval`/`sumvar`/`sumdist` and the merged sums are the
same commutative accumulations): every non-pruned `i` with `i + 1 <
msa.size()` is processed against every non-pruned `j > i`.  Returns
`(sumvar, sumdist)`. -/
def conservationRun (kD : Nat → Nat → ℚ) (msa : List CSeq) : List ℚ × List ℚ :=
  let L := (msa.headD defCSeq).chars.length
  let z : List ℚ := List.replicate L 0
  let fin := (List.range (msa.length - 1)).foldl (fun st i =>
    if (msa.getD i defCSeq).pruned then st
    else (List.range' (i + 1) (msa.length - (i + 1))).foldl (fun st2 j =>
      if (msa.getD j defCSeq).pruned then st2
      else consPair kD (msa.getD i defCSeq) (msa.getD j defCSeq) st2) st)
    (z, z, z)
  (fin.2.1, fin.2.2)

/-- The conservation driver's per-column weight: `sumvar / sumdist`, and
`1.0` when `sumdist` is not positive. -/
def consWeightAt (sumvar sumdist : List ℚ) (i : Nat) : ℚ :=
  if 0 < sumdist.getD i 0 then sumvar.getD i 0 / sumdist.getD i 0 else 1

end Hssp

/-! ### mas.cpp : entry and its gap operations -/

namespace Mas

/-- Modelled from the spec: the gap code `kSignalGapCode` is the index of the
gap symbol in the alphabet table `kAA`, which is declared outside the given
sources.  Per spec §3 the gap symbol is distinct from all 20 residue letters;
the 20 residue codes are `0..19` in the order `A R N D C Q E G H I L K M F P
S T W Y V` documented by the comments of `kResidueSpecificPenalty` in
`mas.cpp`.  Only distinctness from `0..19` matters; we fix the value 22. -/
def kSignalGapCode : Nat := 22

/-- `entry` from mas.h as used by mas.cpp: residue codes, optional fixed
positions (int16 in the source), optional secondary structure, weight. -/
structure Entry where
  seq : List Nat
  positions : List Int
  ss : List Char
  weight : ℚ
deriving Repr, DecidableEq

/-- Default used for `front()` accesses. -/
def defEntry : Entry := ⟨[], [], [], 1⟩

/-- `entry::insert_gap(pos)`: if `pos` exceeds the current length append a
gap (and a 0 to the positions vector when present), else splice the gap
(and a 0) at index `pos`. -/
def insert_gap (e : Entry) (pos : Nat) : Entry :=
  if pos > e.seq.length then
    { e with
      seq := e.seq ++ [kSignalGapCode]
      positions := if e.positions.isEmpty then e.positions else e.positions ++ [0] }
  else
    { e with
      seq := e.seq.insertIdx pos kSignalGapCode
      positions := if e.positions.isEmpty then e.positions
                   else e.positions.insertIdx pos 0 }

/-- `entry::remove_gaps()`: the source asserts `false` when
`m_seq.length() == m_positions.size()` (the forbidden branch, modelled as
`none`), and otherwise erases every gap code from the sequence, leaving the
positions vector untouched. -/
def remove_gaps (e : Entry) : Option Entry :=
  if e.seq.length = e.positions.length then none
  else some { e with seq := e.seq.filter (fun r => r ≠ kSignalGapCode) }

/-! ### mas.cpp : adjust_gp, the position-specific gap-penalty adjustment -/

/-- `kResidueSpecificPenalty` from mas.cpp: per-residue gap penalties in the
order `A R N D C Q E G H I L K M F P S T W Y V`, each ClustalW table value
minus 0.2. -/
def kResidueSpecificPenalty : List ℚ :=
  [93/100, 52/100, 43/100, 76/100, 93/100, 87/100, 111/100, 41/100, 80/100,
   112/100, 101/100, 76/100, 109/100, 100/100, 54/100, 56/100, 69/100,
   103/100, 80/100, 105/100]

/-- `is_hydrophilic`: membership in `encode("DEGKNQPRS")`, i.e. the residue
codes of D, E, G, K, N, Q, P, R, S in the `A R N D C Q E G H I L K M F P S T
W Y V` code order. -/
def isHydrophilic (r : Nat) : Bool :=
  r = 3 ∨ r = 6 ∨ r = 7 ∨ r = 11 ∨ r = 2 ∨ r = 5 ∨ r = 14 ∨ r = 1 ∨ r = 15

/-- Per-column contribution of one entry to `residue_specific_penalty`:
keyed by the DSSP letter when the column has one, else by the residue
table for codes `< 20`, else 1. -/
def residuePenaltyAt (e : Entry) (ix : Nat) : ℚ :=
  if ix < e.ss.length then
    match e.ss.getD ix ' ' with
    | 'H' => 3
    | 'G' => 3
    | 'I' => 3
    | 'B' => 2
    | 'E' => 3/2
    | _ => 1
  else
    let r := e.seq.getD ix 0
    if r < 20 then kResidueSpecificPenalty.getD r 1 else 1

/-- Marking loop for one entry's hydrophilic runs: the source walks
`i = 0 .. gop.size()` with run start `si`, and on every non-hydrophilic
position (or the end) marks `[si, i)` when the run reached length 5. -/
def hydroGo (s : List Nat) (L : Nat) : Nat → Nat → Nat → List Bool → List Bool
  | 0, _, _, marks => marks
  | fuel + 1, si, i, marks =>
    if i = L ∨ ¬ isHydrophilic (s.getD i 0) then
      let marks := if si + 5 ≤ i then
          marks.mapIdx (fun j b => if si ≤ j ∧ j < i then true else b)
        else marks
      hydroGo s L fuel (i + 1) (i + 1) marks
    else hydroGo s L fuel si (i + 1) marks

/-- The inspection phase of `adjust_gp`: one pass over the entries
accumulating per-column gap counts and residue-specific penalties, and
marking hydrophilic stretches of length at least 5. -/
def adjInspect (rows : List Entry) (L : Nat) : List Nat × List ℚ × List Bool :=
  rows.foldl (fun (acc : List Nat × List ℚ × List Bool) e =>
    let gaps := acc.1.mapIdx (fun ix v =>
      if e.seq.getD ix 0 = kSignalGapCode then v + 1 else v)
    let rsp := acc.2.1.mapIdx (fun ix v => v + residuePenaltyAt e ix)
    let hyd := hydroGo e.seq L (L + 1) 0 0 acc.2.2
    (gaps, rsp, hyd))
    (List.replicate L 0, List.replicate L 0, List.replicate L false)

/-- The `for (d = 0; d < 8; ++d)` scan of `adjust_gp`: the first `d` at
which the column `ix + d` lies beyond the end or carries a gap, or `ix - d`
lies before the start or carries a gap, yields the factor
`(2 + (8 - d) * 2) / 8`; if no `d < 8` fires the gap-open cost is left
untouched (`none`). -/
def dScan (gaps : List Nat) (L ix : Nat) : Nat → Nat → Option ℚ
  | _, 0 => none
  | d, fuel + 1 =>
    if L ≤ ix + d ∨ 0 < gaps.getD (ix + d) 0 ∨ ix < d ∨ 0 < gaps.getD (ix - d) 0 then
      some ((2 + (8 - d) * 2 : Nat) / 8 : ℚ)
    else dScan gaps L ix (d + 1) fuel

/-- `adjust_gp(gop, gep, seq)` from mas.cpp: after the inspection phase,
per column: a column with a gap gets `gop *= 0.3 * ((rows - gaps)/rows)`
and `gep /= 2`; otherwise the `dScan` factor is applied when it fires, and
then the column is either divided by 3 (hydrophilic stretch) or multiplied
by `residue_specific_penalty / rows`. -/
def adjust_gp (gop gep : List ℚ) (rows : List Entry) : List ℚ × List ℚ :=
  let L := gop.length
  let insp := adjInspect rows L
  let gaps := insp.1
  let rsp := insp.2.1
  let hyd := insp.2.2
  let n := rows.length
  let gop' := gop.mapIdx (fun ix g =>
    if 0 < gaps.getD ix 0 then
      g * ((3/10) * (((n - gaps.getD ix 0 : Nat) : ℚ) / (n : ℚ)))
    else
      let g1 := match dScan gaps L ix 0 8 with
        | some f => g * f
        | none => g
      if hyd.getD ix false then g1 / 3
      else g1 * (rsp.getD ix 0 / (n : ℚ)))
  let gep' := gep.mapIdx (fun ix v =>
    if 0 < gaps.getD ix 0 then v / 2 else v)
  (gop', gep')

/-- Spec-side characterization for the amended claim C8: the smallest
distance `d` with `1 ≤ d < 8` at which a gap *or a sequence boundary* lies
within reach of column `ix`. -/
def minGapOrBoundaryDist (gaps : List Nat) (L ix : Nat) : Option Nat :=
  (List.range' 1 7).find? (fun d =>
    decide (L ≤ ix + d ∨ 0 < gaps.getD (ix + d) 0 ∨ ix < d ∨ 0 < gaps.getD (ix - d) 0))

/-- Spec-side factor for the amended claim C8. -/
def gapAdjacencyFactor (gaps : List Nat) (L ix : Nat) : ℚ :=
  match minGapOrBoundaryDist gaps L ix with
  | some d => ((2 + (8 - d) * 2 : Nat) : ℚ) / 8
  | none => 1

/-- Spec-side per-column gap-open factor for the amended claim C9: the whole
adjustment multiplies `gop[ix]` by this value, which depends only on the
rows (via the inspection data) and the vector length. -/
def gopFactor (rows : List Entry) (L : Nat) (ix : Nat) : ℚ :=
  let insp := adjInspect rows L
  let gaps := insp.1
  let rsp := insp.2.1
  let hyd := insp.2.2
  let n := rows.length
  if 0 < gaps.getD ix 0 then
    (3/10) * (((n - gaps.getD ix 0 : Nat) : ℚ) / (n : ℚ))
  else
    (match dScan gaps L ix 0 8 with
      | some f => f
      | none => 1) *
    (if hyd.getD ix false then (3 : ℚ)⁻¹ else rsp.getD ix 0 / (n : ℚ))

/-- Spec-side per-column gap-extend factor for the amended claim C9. -/
def gepFactor (rows : List Entry) (L : Nat) (ix : Nat) : ℚ :=
  if 0 < (adjInspect rows L).1.getD ix 0 then 1/2 else 1

/-! ### mas.cpp : the anchored-window advance shared by calculateDistance
and align (lines 178-211 and 749-782 are textually identical). -/

/-- `while (endX < dimX and (endY == dimY or pa[endX] < pb[endY])) ++endX`. -/
def skipLow (p other : List Int) (dim dimOther : Nat) (endOther : Nat) :
    Nat → Nat → Nat
  | _, 0 => 0
  | endX, fuel + 1 =>
    if endX < dim ∧ (endOther = dimOther ∨ p.getD endX 0 < other.getD endOther 0)
    then skipLow p other dim dimOther endOther (endX + 1) fuel
    else endX

/-- The `while (endX < dimX or endY < dimY)` window-advance loop: skip zero
positions, stop at a matching non-zero anchor pair, otherwise advance the
side with the strictly smaller non-zero position. -/
def advanceWindow (pa pb : List Int) (dimX dimY : Nat) :
    Nat → Nat × Nat → Nat × Nat
  | 0, st => st
  | fuel + 1, (endX, endY) =>
    if ¬(endX < dimX ∨ endY < dimY) then (endX, endY)
    else if endX < dimX ∧ pa.getD endX 0 = 0 then
      advanceWindow pa pb dimX dimY fuel (endX + 1, endY)
    else if endY < dimY ∧ pb.getD endY 0 = 0 then
      advanceWindow pa pb dimX dimY fuel (endX, endY + 1)
    else if endX < dimX ∧ endY < dimY ∧ pa.getD endX 0 = pb.getD endY 0 ∧
        pa.getD endX 0 ≠ 0 then
      (endX, endY)
    else
      let endX := skipLow pa pb dimX dimY endY endX (dimX + 1)
      let endY := skipLow pb pa dimY dimX endX endY (dimY + 1)
      if endX < dimX ∧ endY < dimY ∧ pa.getD endX 0 ≠ pb.getD endY 0 then
        advanceWindow pa pb dimX dimY fuel (endX, endY)
      else (endX, endY)

/-! ### mas.cpp : calculateDistance -/

/-- The DP matrices of `calculateDistance` (`B`, `Ix`, `Iy`, `id`) as
pointwise-updated functions, plus the per-rectangle `high`/`highIdSub`
accumulator.  `high` starts at `-FLT_MAX`, modelled as `none` (every
computed score exceeds it). -/
structure DState where
  mB : Nat × Nat → ℚ
  mIx : Nat × Nat → ℚ
  mIy : Nat × Nat → ℚ
  mId : Nat × Nat → Nat
  high : Option ℚ
  highIdSub : Nat

/-- `kDistanceGapOpen = 10` and `kDistanceGapExtend = 0.2`. -/
def kDistanceGapOpen : ℚ := 10
/-- See `kDistanceGapOpen`. -/
def kDistanceGapExtend : ℚ := 1/5

/-- One inner cell `(x, y)` of the `calculateDistance` DP: the three-way
branch on `M`, `Ix1`, `Iy1` with the identity count propagated along the
chosen predecessor, the best-boundary-score update (`high < s`, strict),
and the affine gap recurrences. -/
def dcell (mat : Nat → Nat → ℚ) (sa sb : List Nat)
    (startX startY endX endY : Nat) (st : DState) (x y : Nat) : DState :=
  let Ix1 : ℚ := if startX < x then st.mIx (x - 1, y) else 0
  let Iy1 : ℚ := if startY < y then st.mIy (x, y - 1) else 0
  let M0 : ℚ := mat (sa.getD x 0) (sb.getD y 0)
  let M : ℚ := if startX < x ∧ startY < y then M0 + st.mB (x - 1, y - 1) else M0
  let i0 : Nat := if sa.getD x 0 = sb.getD y 0 then 1 else 0
  let si : ℚ × Nat :=
    if Ix1 ≤ M ∧ Iy1 ≤ M then
      (M, i0 + (if startX < x ∧ startY < y then st.mId (x - 1, y - 1) else 0))
    else if Iy1 ≤ Ix1 then
      (Ix1, i0 + (if startX < x then st.mId (x - 1, y) else 0))
    else
      (Iy1, i0 + (if startY < y then st.mId (x, y - 1) else 0))
  let hOk : Bool := match st.high with | none => true | some h => decide (h < si.1)
  let hi : Option ℚ × Nat :=
    if (x = endX - 1 ∨ y = endY - 1) ∧ hOk = true then (some si.1, si.2)
    else (st.high, st.highIdSub)
  { mB := upd st.mB (x, y) si.1
    mIx := upd st.mIx (x, y) (max (M - kDistanceGapOpen) (Ix1 - kDistanceGapExtend))
    mIy := upd st.mIy (x, y) (max (M - kDistanceGapOpen) (Iy1 - kDistanceGapExtend))
    mId := upd st.mId (x, y) si.2
    high := hi.1
    highIdSub := hi.2 }

/-- The inner `for (y = startY; y < endY; ++y)` loop of one DP column. -/
def dcolGo (mat : Nat → Nat → ℚ) (sa sb : List Nat)
    (startX startY endX endY x : Nat) (st : DState) (y : Nat) : Nat → DState
  | 0 => st
  | k + 1 => dcolGo mat sa sb startX startY endX endY x
      (dcell mat sa sb startX startY endX endY st x y) (y + 1) k

/-- The outer `for (x = startX; x < endX; ++x)` loop of one DP rectangle. -/
def drectGo (mat : Nat → Nat → ℚ) (sa sb : List Nat)
    (startX startY endX endY : Nat) (st : DState) (x : Nat) : Nat → DState
  | 0 => st
  | k + 1 => drectGo mat sa sb startX startY endX endY
      (dcolGo mat sa sb startX startY endX endY x st startY (endY - startY))
      (x + 1) k

/-- The outer anchored loop of `calculateDistance`: at a matching non-zero
anchor advance diagonally (counting an identity when the residues match),
otherwise advance the window and fill the rectangle
`[x, endX) x [y, endY)`, accumulating the rectangle's best-boundary
identity count into `highId`. -/
def dloop (mat : Nat → Nat → ℚ) (sa sb : List Nat) (pa pb : List Int)
    (dimX dimY : Nat) :
    Nat → Nat × Nat × Nat × Nat → (Nat × Nat → ℚ) × (Nat × Nat → ℚ) ×
      (Nat × Nat → ℚ) × (Nat × Nat → Nat) → Nat → Nat
  | 0, _, _, highId => highId
  | fuel + 1, (x, y, endX, endY), (mB, mIx, mIy, mId), highId =>
    if x < dimX ∧ y < dimY then
      if x = endX ∧ y = endY ∧ pa.getD x 0 = pb.getD y 0 ∧ pa.getD x 0 ≠ 0 then
        dloop mat sa sb pa pb dimX dimY fuel
          (x + 1, y + 1, endX + 1, endY + 1) (mB, mIx, mIy, mId)
          (highId + (if sa.getD x 0 = sb.getD y 0 then 1 else 0))
      else
        let adv := advanceWindow pa pb dimX dimY (dimX + dimY + 2) (endX, endY)
        let mIx := upd mIx (x, y) 0
        let mIy := upd mIy (x, y) 0
        let mId := if 0 < x ∧ 0 < y then upd mId (x - 1, y - 1) highId else mId
        let r := drectGo mat sa sb x y adv.1 adv.2
          ⟨mB, mIx, mIy, mId, none, 0⟩ x (adv.1 - x)
        dloop mat sa sb pa pb dimX dimY fuel
          (adv.1, adv.2, adv.1, adv.2) (r.mB, r.mIx, r.mIy, r.mId)
          (highId + r.highIdSub)
    else highId

/-- The final `highId` of `calculateDistance(a, b)` (the uninitialised DP
matrices are modelled as all-zero; every cell is written before it is
read, so the initial values are irrelevant, matching the source). -/
def distHighId (mat : Nat → Nat → ℚ) (sa sb : List Nat) (pa pb : List Int) : Nat :=
  let dimX := sa.length
  let dimY := sb.length
  let e0 : Nat × Nat := if pa.isEmpty ∨ pb.isEmpty then (dimX, dimY) else (0, 0)
  dloop mat sa sb pa pb dimX dimY (2 * (dimX + dimY) + 2)
    (0, 0, e0.1, e0.2) (fun _ => 0, fun _ => 0, fun _ => 0, fun _ => 0) 0

/-- `calculateDistance(a, b) = 1 - highId / max(dimX, dimY)`, the value the
source then asserts to lie in `[0, 1]`. -/
def calculateDistance (mat : Nat → Nat → ℚ) (sa sb : List Nat)
    (pa pb : List Int) : ℚ :=
  1 - (distHighId mat sa sb pa pb : ℚ) / ((max sa.length sb.length : Nat) : ℚ)

/-! ### mas.cpp : align, the profile-alignment kernel -/

/-- `score(a, b, ix_a, ix_b, mat)`: the weighted sum of matrix scores over
all row pairs whose residues are both non-gap, divided by `|a| * |b|`. -/
def score (mat : Nat → Nat → ℚ) (a b : List Entry) (x y : Nat) : ℚ :=
  (a.foldl (fun acc ea =>
    b.foldl (fun acc2 eb =>
      let ra := ea.seq.getD x 0
      let rb := eb.seq.getD y 0
      if ra ≠ kSignalGapCode ∧ rb ≠ kSignalGapCode then
        acc2 + ea.weight * eb.weight * mat ra rb
      else acc2) acc) 0)
    / ((a.length : ℚ) * (b.length : ℚ))

/-- The DP state of `align`: score matrices `B`, `Ix`, `Iy`, the traceback
matrix `tb` (initialised to 2, the debug sentinel the traceback asserts
against), the per-rectangle `high` (initialised to 0) and the best cell
`highX`/`highY` (which persist across rectangles). -/
structure AState where
  mB : Nat × Nat → ℚ
  mIx : Nat × Nat → ℚ
  mIy : Nat × Nat → ℚ
  tb : Nat × Nat → Int
  high : ℚ
  highX : Nat
  highY : Nat

/-- Write `v` into `tb(x, y-ish)` for `x` in `[lo, hi)` (a row of the
traceback matrix). -/
def tbSetRow (tb : Nat × Nat → Int) (y lo hi : Nat) (v : Int) : Nat × Nat → Int :=
  (List.range' lo (hi - lo)).foldl (fun t x => upd t (x, y) v) tb

/-- Write `v` into `tb(x-ish, y)` for `y` in `[lo, hi)` (a column of the
traceback matrix). -/
def tbSetCol (tb : Nat × Nat → Int) (x lo hi : Nat) (v : Int) : Nat × Nat → Int :=
  (List.range' lo (hi - lo)).foldl (fun t y => upd t (x, y) v) tb

/-- One inner cell `(x, y)` of the `align` DP: the three-way branch records
the traceback direction, the best-boundary update uses `high <= s`
(non-strict, so the last maximal boundary cell wins), and the gap
recurrences use the position-specific penalties, with no opening cost on
the final column/row (`x < dimX - 1 ? gop_a[x] : 0`). -/
def acell (mat : Nat → Nat → ℚ) (a b : List Entry)
    (gopa gepa gopb gepb : List ℚ) (dimX dimY : Nat)
    (startX startY endX endY : Nat) (st : AState) (x y : Nat) : AState :=
  let Ix1 : ℚ := if startX < x then st.mIx (x - 1, y) else 0
  let Iy1 : ℚ := if startY < y then st.mIy (x, y - 1) else 0
  let M0 : ℚ := score mat a b x y
  let M : ℚ := if startX < x ∧ startY < y then M0 + st.mB (x - 1, y - 1) else M0
  let st2 : ℚ × Int :=
    if Ix1 ≤ M ∧ Iy1 ≤ M then (M, 0)
    else if Iy1 ≤ Ix1 then (Ix1, 1)
    else (Iy1, -1)
  let hi : ℚ × Nat × Nat :=
    if (x = endX - 1 ∨ y = endY - 1) ∧ st.high ≤ st2.1 then (st2.1, x, y)
    else (st.high, st.highX, st.highY)
  { mB := upd st.mB (x, y) st2.1
    mIx := upd st.mIx (x, y)
      (max (M - (if x < dimX - 1 then gopa.getD x 0 else 0)) (Ix1 - gepa.getD x 0))
    mIy := upd st.mIy (x, y)
      (max (M - (if y < dimY - 1 then gopb.getD y 0 else 0)) (Iy1 - gepb.getD y 0))
    tb := upd st.tb (x, y) st2.2
    high := hi.1
    highX := hi.2.1
    highY := hi.2.2 }

/-- The inner `for (y = startY; y < endY; ++y)` loop of one `align` column. -/
def acolGo (mat : Nat → Nat → ℚ) (a b : List Entry)
    (gopa gepa gopb gepb : List ℚ) (dimX dimY : Nat)
    (startX startY endX endY x : Nat) (st : AState) (y : Nat) : Nat → AState
  | 0 => st
  | k + 1 => acolGo mat a b gopa gepa gopb gepb dimX dimY startX startY endX endY x
      (acell mat a b gopa gepa gopb gepb dimX dimY startX startY endX endY st x y)
      (y + 1) k

/-- The outer `for (x = startX; x < endX; ++x)` loop of one `align`
rectangle. -/
def arectGo (mat : Nat → Nat → ℚ) (a b : List Entry)
    (gopa gepa gopb gepb : List ℚ) (dimX dimY : Nat)
    (startX startY endX endY : Nat) (st : AState) (x : Nat) : Nat → AState
  | 0 => st
  | k + 1 => arectGo mat a b gopa gepa gopb gepb dimX dimY startX startY endX endY
      (acolGo mat a b gopa gepa gopb gepb dimX dimY startX startY endX endY x st
        startY (endY - startY))
      (x + 1) k

/-- The outer anchored loop of `align`: anchor cells force a diagonal
traceback step; otherwise the window is advanced, the rows/columns just
before the rectangle are forced towards it, the rectangle is filled, and
the boundary beyond the best cell is forced towards `(highX, highY)`. -/
def aloop (mat : Nat → Nat → ℚ) (a b : List Entry)
    (gopa gepa gopb gepb : List ℚ) (pa pb : List Int) (dimX dimY : Nat) :
    Nat → Nat × Nat × Nat × Nat → AState → AState × Nat × Nat
  | 0, (_, _, endX, endY), st => (st, endX, endY)
  | fuel + 1, (x, y, endX, endY), st =>
    if x < dimX ∧ y < dimY then
      if x = endX ∧ y = endY ∧ pa.getD x 0 = pb.getD y 0 ∧ pa.getD x 0 ≠ 0 then
        aloop mat a b gopa gepa gopb gepb pa pb dimX dimY fuel
          (x + 1, y + 1, endX + 1, endY + 1)
          { st with tb := upd st.tb (x, y) 0, highX := x, highY := y }
      else
        let adv := advanceWindow pa pb dimX dimY (dimX + dimY + 2) (endX, endY)
        let st := { st with
          mIx := upd st.mIx (x, y) 0
          mIy := upd st.mIy (x, y) 0 }
        let st := { st with tb :=
          (if 0 < y then tbSetRow st.tb (y - 1) x adv.1 1 else st.tb) }
        let st := { st with tb :=
          (if 0 < x then tbSetCol st.tb (x - 1) y adv.2 (-1) else st.tb) }
        let st := { st with high := 0 }
        let r := arectGo mat a b gopa gepa gopb gepb dimX dimY x y adv.1 adv.2
          st x (adv.1 - x)
        let r := { r with tb :=
          (if 0 < adv.2 then tbSetRow r.tb (adv.2 - 1) (r.highX + 1) adv.1 1
           else r.tb) }
        let r := { r with tb :=
          (if 0 < adv.1 then tbSetCol r.tb (adv.1 - 1) (r.highY + 1) adv.2 (-1)
           else r.tb) }
        aloop mat a b gopa gepa gopb gepb pa pb dimX dimY fuel
          (adv.1, adv.2, adv.1, adv.2) r
    else (st, endX, endY)

/-- Apply `insert_gap` at position `pos` to every row, `k` times (one
`while` iteration of the start-gap padding per application). -/
def applyGaps (rows : List Entry) (pos : Nat) : Nat → List Entry
  | 0 => rows
  | k + 1 => applyGaps (rows.map (fun e => insert_gap e pos)) pos k

/-- The traceback of `align` from `(dimX - 1, dimY - 1)`: `-1` inserts a
gap in every row of `a` at `x + 1` and moves up, `1` inserts a gap in
every row of `b` at `y + 1` and moves left, `0` moves diagonally; any
other value is the asserted-unreachable sentinel (`none`).  On leaving the
matrix the remaining prefix of either side is padded with start gaps. -/
def traceGo (tb : Nat × Nat → Int) :
    Nat → Int → Int → List Entry → List Entry → Option (List Entry × List Entry)
  | 0, _, _, _, _ => none
  | fuel + 1, x, y, a, b =>
    if 0 ≤ x ∧ 0 ≤ y then
      let t := tb (x.toNat, y.toNat)
      if t = -1 then
        traceGo tb fuel x (y - 1) (a.map (fun e => insert_gap e (x + 1).toNat)) b
      else if t = 1 then
        traceGo tb fuel (x - 1) y a (b.map (fun e => insert_gap e (y + 1).toNat))
      else if t = 0 then
        traceGo tb fuel (x - 1) (y - 1) a b
      else none
    else
      let kx := (x + 1).toNat
      let b2 := applyGaps b (y + 1).toNat kx
      let x2 := x - (kx : Int)
      let ky := (y + 1).toNat
      let a2 := applyGaps a (x2 + 1).toNat ky
      some (a2, b2)

/-- `align(node, a, b, c, ...)`.  The scalar gap-cost preparation of the
source
(`gop = (gop / (logdiff * logmin)) * |mismatch_average| * scale * magic`
and the `1 + log10(dimX/dimY)` factors on `gep`) involves `log10` and is
not representable over `ℚ`; those three scalars enter here as the already
scaled parameters `gopS`, `gepSA`, `gepSB`, multiplied by the mean row
weights and expanded to per-column vectors exactly as in the source, then
adjusted by `adjust_gp`.  `mat` is the non-negative-shifted matrix chosen
from the family by the node's distance.  Returns the mutated row sets
`(a', b', c)`, or `none` for the asserted-unreachable traceback sentinel. -/
def align (mat : Nat → Nat → ℚ) (gopS gepSA gepSB : ℚ)
    (a b : List Entry) (ignorePositions : Bool) :
    Option (List Entry × List Entry × List Entry) :=
  let fa := a.headD defEntry
  let fb := b.headD defEntry
  let pa := fa.positions
  let pb := fb.positions
  let dimX := fa.seq.length
  let dimY := fb.seq.length
  let avgA := (a.foldl (fun s e => s + e.weight) 0) / (a.length : ℚ)
  let avgB := (b.foldl (fun s e => s + e.weight) 0) / (b.length : ℚ)
  let ga := adjust_gp (List.replicate dimX (gopS * avgA))
    (List.replicate dimX (gepSA * avgA)) a
  let gb := adjust_gp (List.replicate dimY (gopS * avgB))
    (List.replicate dimY (gepSB * avgB)) b
  let e0 : Nat × Nat :=
    if ignorePositions ∨ pa.isEmpty ∨ pb.isEmpty then (dimX, dimY) else (0, 0)
  let st0 : AState :=
    ⟨fun _ => 0, fun _ => 0, fun _ => 0, fun _ => 2, 0, 0, 0⟩
  let res := aloop mat a b ga.1 ga.2 gb.1 gb.2 pa pb dimX dimY
    (2 * (dimX + dimY) + 2) (0, 0, e0.1, e0.2) st0
  let fin := res.1
  let endX := res.2.1
  let endY := res.2.2
  let tb := if 0 < endY then tbSetRow fin.tb (endY - 1) (fin.highX + 1) dimX 1
            else fin.tb
  let tb := if 0 < endX then tbSetCol tb (endX - 1) (fin.highY + 1) dimY (-1)
            else tb
  match traceGo tb (dimX + dimY + 2) ((dimX : Int) - 1) ((dimY : Int) - 1) a b with
  | none => none
  | some (a2, b2) =>
    let c := a2 ++ b2
    let c :=
      if ¬ ignorePositions ∧ ¬ pa.isEmpty then
        match c with
        | [] => []
        | e :: rest =>
          { e with positions :=
              (List.zipWith max (a2.headD defEntry).positions
                (b2.headD defEntry).positions) } :: rest
      else c
    some (a2, b2, c)

/-! ### Concrete inputs used by counterexamples and witnesses -/

/-- The single-row MSA of the C8 counterexample: one row `AAAA` (residue
code 0 is alanine), no gaps anywhere. -/
def c8rows : List Entry := [⟨[0, 0, 0, 0], [], [], 1⟩]

/-- The rows of the C9 counterexample: a gap in row 0, column 1. -/
def c9rows : List Entry := [⟨[0, 22], [], [], 1⟩, ⟨[0, 0], [], [], 1⟩]

/-- The substitution matrix of the C2 counterexample: symmetric, positive
diagonal, every off-diagonal entry at most both diagonal entries, all
entries within `int8` range - the qualitative shape of GONNET250. -/
def c2mat (i j : Nat) : ℚ :=
  (([[78, -76, -32], [-76, 77, -10], [-32, -10, 24]] : List (List ℚ)).getD i []).getD j 0



/-- Prefix sums of the diagonal matrix scores of a sequence against
itself: the score of the exact diagonal alignment of `s[0..k]`. -/
def dDiag (mat : Nat → Nat → ℚ) (s : List Nat) : Nat → ℚ
  | 0 => mat (s.getD 0 0) (s.getD 0 0)
  | k + 1 => dDiag mat s k + mat (s.getD (k + 1) 0) (s.getD (k + 1) 0)

/-- Scan order of the DP rectangle: cell `(a, b)` has been processed when
the scan stands at column `x`, row `y`. -/
def dProc (x y a b : Nat) : Prop := a < x ∨ (a = x ∧ b < y)

/-- The invariant of the self-distance DP over the full rectangle: every
processed cell is bounded by the diagonal score of its minor, processed
diagonal cells are exact with identity count `k + 1`, and the running
boundary best is bounded by the next-to-last diagonal score. -/
def dInv (mat : Nat → Nat → ℚ) (s : List Nat) (x y : Nat) (st : DState) : Prop :=
  (∀ a b, a < s.length → b < s.length → dProc x y a b →
    st.mB (a, b) ≤ dDiag mat s (min a b) ∧
    st.mIx (a, b) ≤ dDiag mat s (min a b) ∧
    st.mIy (a, b) ≤ dDiag mat s (min a b)) ∧
  (∀ k, k < s.length → dProc x y k k →
    st.mB (k, k) = dDiag mat s k ∧ st.mId (k, k) = k + 1) ∧
  (match st.high with
   | none => True
   | some v => 2 ≤ s.length ∧ v ≤ dDiag mat s (s.length - 2))

/-- The `Ix` predecessor value read by a distance DP cell of the full
rectangle. -/
def cIx1 (st : DState) (x y : Nat) : ℚ :=
  if 0 < x then st.mIx (x - 1, y) else 0

/-- The `Iy` predecessor value read by a distance DP cell of the full
rectangle. -/
def cIy1 (st : DState) (x y : Nat) : ℚ :=
  if 0 < y then st.mIy (x, y - 1) else 0

/-- The match score (with diagonal predecessor) read by a distance DP cell
of the full rectangle. -/
def cM (mat : Nat → Nat → ℚ) (sa sb : List Nat) (st : DState) (x y : Nat) : ℚ :=
  if 0 < x ∧ 0 < y then
    mat (sa.getD x 0) (sb.getD y 0) + st.mB (x - 1, y - 1)
  else mat (sa.getD x 0) (sb.getD y 0)

/-- The score/identity pair chosen by a distance DP cell of the full
rectangle. -/
def cSI (mat : Nat → Nat → ℚ) (sa sb : List Nat) (st : DState) (x y : Nat) :
    ℚ × Nat :=
  if cIx1 st x y ≤ cM mat sa sb st x y ∧ cIy1 st x y ≤ cM mat sa sb st x y then
    (cM mat sa sb st x y,
     (if sa.getD x 0 = sb.getD y 0 then 1 else 0) +
       (if 0 < x ∧ 0 < y then st.mId (x - 1, y - 1) else 0))
  else if cIy1 st x y ≤ cIx1 st x y then
    (cIx1 st x y,
     (if sa.getD x 0 = sb.getD y 0 then 1 else 0) +
       (if 0 < x then st.mId (x - 1, y) else 0))
  else
    (cIy1 st x y,
     (if sa.getD x 0 = sb.getD y 0 then 1 else 0) +
       (if 0 < y then st.mId (x, y - 1) else 0))

/-- Prefix sums of the diagonal profile scores of a row set against an
identical copy. -/
def aDiag (mat : Nat → Nat → ℚ) (a b : List Entry) : Nat → ℚ
  | 0 => score mat a b 0 0
  | k + 1 => aDiag mat a b k + score mat a b (k + 1) (k + 1)

/-- The `Ix` predecessor value read by an `align` DP cell of the full
rectangle. -/
def aIx1 (st : AState) (x y : Nat) : ℚ :=
  if 0 < x then st.mIx (x - 1, y) else 0

/-- The `Iy` predecessor value read by an `align` DP cell of the full
rectangle. -/
def aIy1 (st : AState) (x y : Nat) : ℚ :=
  if 0 < y then st.mIy (x, y - 1) else 0

/-- The match score (with diagonal predecessor) read by an `align` DP cell
of the full rectangle. -/
def aM (mat : Nat → Nat → ℚ) (a b : List Entry) (st : AState) (x y : Nat) : ℚ :=
  if 0 < x ∧ 0 < y then score mat a b x y + st.mB (x - 1, y - 1)
  else score mat a b x y

/-- The score/traceback pair chosen by an `align` DP cell of the full
rectangle. -/
def aST (mat : Nat → Nat → ℚ) (a b : List Entry) (st : AState) (x y : Nat) :
    ℚ × Int :=
  if aIx1 st x y ≤ aM mat a b st x y ∧ aIy1 st x y ≤ aM mat a b st x y then
    (aM mat a b st x y, 0)
  else if aIy1 st x y ≤ aIx1 st x y then (aIx1 st x y, 1)
  else (aIy1 st x y, -1)

/-- The invariant of the self-alignment DP over the full rectangle. -/
def aInv (mat : Nat → Nat → ℚ) (a b : List Entry) (n : Nat) (x y : Nat)
    (st : AState) : Prop :=
  (∀ p q, p < n → q < n → dProc x y p q →
    st.mB (p, q) ≤ aDiag mat a b (min p q) ∧
    st.mIx (p, q) ≤ aDiag mat a b (min p q) ∧
    st.mIy (p, q) ≤ aDiag mat a b (min p q)) ∧
  (∀ k, k < n → dProc x y k k →
    st.mB (k, k) = aDiag mat a b k ∧ st.tb (k, k) = 0) ∧
  st.high ≤ aDiag mat a b (n - 1)
end Mas

namespace Hssp

/-- The MSA of the C4 failing input: a query row `XXZ` and one hit row
`X.X` (its state after `update`: window `[0,3)`, internal gap rewritten to
`.`), neither pruned. -/
def c4msa : List CSeq :=
  [⟨['X', 'X', 'Z'], 0, 3, false⟩, ⟨['X', '.', 'X'], 0, 3, false⟩]

/-- The residue info of the C5 counterexample: query letter `A`. -/
def c5res : ResInfo := ⟨'A', 'A', 0, 1, 0, 0, List.replicate 20 0⟩

/-- The hits of the C5 counterexample: six same-chain hits whose column-0
residues are the six distinct letters `V L I M F W`. -/
def c5hits : List VHit :=
  [⟨'A', ['V'], 0, 1, ['A', 'A']⟩, ⟨'A', ['L'], 0, 1, ['A', 'A']⟩,
   ⟨'A', ['I'], 0, 1, ['A', 'A']⟩, ⟨'A', ['M'], 0, 1, ['A', 'A']⟩,
   ⟨'A', ['F'], 0, 1, ['A', 'A']⟩, ⟨'A', ['W'], 0, 1, ['A', 'A']⟩]

end Hssp

end Xssp

/-! ## Theorems settling the claims -/

namespace Xssp

/-- Helper: an integer reduced modulo 256 is never `-1`. -/
theorem emod256_ne_neg_one (z : Int) : (z % 256 == -1) = false := by
  have h := Int.emod_nonneg z (by norm_num : (256 : Int) ≠ 0)
  simp only [beq_eq_false_iff_ne, ne_eq]
  omega

namespace Hssp

/-- Helper: `updTail` never returns an error, because the narrowed
`uint8` residue codes are non-negative and the source compares them
against `-1`. -/
theorem updTail_ok (kD : Nat → Nat → ℚ) (qc : Char) (i : Nat) (st : UpdState) :
    ∃ st', updTail kD qc i st = Except.ok st' := by
  simp only [updTail, emod256_ne_neg_one, Bool.false_eq_true, if_false]
  exact ⟨_, rfl⟩

/-- Helper: `updStep` never returns an error. -/
theorem updStep_ok (kD : Nat → Nat → ℚ) (qc : Char) (i : Nat) (st : UpdState) :
    ∃ st', updStep kD qc i st = Except.ok st' := by
  simp only [updStep]
  split
  · exact ⟨_, rfl⟩
  · split
    · exact ⟨_, rfl⟩
    · split
      · exact updTail_ok _ _ _ _
      · exact updTail_ok _ _ _ _

/-- Helper: `updLoop` never returns an error. -/
theorem updLoop_ok (kD : Nat → Nat → ℚ) (qs : List Char) (i : Nat)
    (st : UpdState) : ∃ st', updLoop kD qs i st = Except.ok st' := by
  induction qs generalizing i st with
  | nil => exact ⟨st, rfl⟩
  | cons qc qs ih =>
    obtain ⟨st1, h1⟩ := updStep_ok kD qc i st
    obtain ⟨st2, h2⟩ := ih (i + 1) st1
    exact ⟨st2, by unfold updLoop; rw [h1]; exact h2⟩

/-- C1: the residue validation of `seq::seq_impl::update` never fires: the
residue code is narrowed to `uint8` before being compared against `-1`, so
the comparison is always false and an invalid letter (such as `J`, whose
residue index is the failure value `-1`) is silently accepted; no input
makes `update` raise the fatal error the claim requires. -/
theorem C1_update_never_raises :
    kResidueIX 'J' = -1 ∧
    ∀ (kD : Nat → Nat → ℚ) (qseq subj : List Char) (jfir : Nat),
      ∃ st, update kD qseq subj jfir = Except.ok st := by
  refine ⟨by decide, fun kD qseq subj jfir => ?_⟩
  obtain ⟨st, h⟩ := updLoop_ok kD qseq 0 (updInit subj jfir)
  unfold update
  rw [h]
  exact ⟨_, rfl⟩

attribute [local semireducible] Rat.add Rat.mul Rat.sub Rat.inv in
set_option maxRecDepth 100000 in
/-- C4: on the failing input `c4msa` the conservation worker adds
`distance * 1.5 = 3/4` to `sumdist` at the column where the hit row is
gapped (its `simval` slot still holds the initial value `0`, not the
"missing" sentinel), so the driver assigns that query column the weight
`0 / (3/4) = 0`; the claim requires a gapped column to contribute nothing,
which would give weight `1.0`.  The matrix is irrelevant here (no column of
this input has valid residues in both rows, so `kD` is never consulted);
it is instantiated at the zero matrix. -/
theorem C4_gap_column_contributes :
    (conservationRun (fun _ _ => (0:ℚ)) c4msa).2.getD 1 0 = 3/4 ∧
    consWeightAt (conservationRun (fun _ _ => (0:ℚ)) c4msa).1
      (conservationRun (fun _ _ => (0:ℚ)) c4msa).2 1 = 0 := by
  decide

/-- Helper: `indexOf?` returns an index below the list length. -/
theorem indexOf?_lt_length {α : Type} [BEq α] (a : α) :
    ∀ (l : List α) (i : Nat), l.indexOf? a = some i → i < l.length := by
  intro l
  induction l with
  | nil => intro i h; simp [List.indexOf?] at h
  | cons x xs ih =>
    intro i h
    rw [List.indexOf?, List.findIdx?_cons] at h
    by_cases hx : x == a
    · simp [hx] at h
      simp only [List.length_cons]
      omega
    · simp only [hx, Bool.false_eq_true, if_false] at h
      rw [List.findIdx?_succ] at h
      rcases i with _ | i
      · simp at h
      · have : xs.indexOf? a = some i := by
          rw [List.indexOf?]
          rcases hf : List.findIdx? (fun b => b == a) xs with _ | j
          · simp [hf] at h
          · simp [hf] at h ⊢
            omega
        have := ih i this
        simp only [List.length_cons]
        omega

/-- Helper: every residue index is below 20. -/
theorem kResidueIX_lt_20 (c : Char) : kResidueIX c < 20 := by
  unfold kResidueIX
  rcases h : kResidueLetters.indexOf? c.toUpper with _ | i
  · split_ifs <;> norm_num
  · have := indexOf?_lt_length c.toUpper kResidueLetters i h
    simp only [kResidueLetters, List.length_cons, List.length_nil] at this
    show (i : Int) < 20
    omega

/-- Helper: incrementing one in-range entry of a list adds one to its sum. -/
theorem sum_set_getD_add_one :
    ∀ (l : List Nat) (i : Nat), i < l.length →
      (l.set i (l.getD i 0 + 1)).sum = l.sum + 1 := by
  intro l
  induction l with
  | nil => intro i h; simp at h
  | cons x xs ih =>
    intro i h
    rcases i with _ | i
    · simp [List.sum_cons]
      omega
    · simp only [List.set_cons_succ, List.sum_cons, List.getD_cons_succ]
      have := ih i (by simpa using h)
      omega

/-- Helper: the counting fold of `CalculateVariability` preserves
`dist.sum = nocc`, the bucket-vector length and positivity of `nocc`, and
does not change the other fields. -/
theorem varFold_inv (hits : List VHit) :
    ∀ (r : ResInfo), r.dist.length = 20 → r.dist.sum = r.nocc → 0 < r.nocc →
      let r' := hits.foldl (fun r hit =>
        if hit.chain ≠ r.chain then r
        else
          let ix2 := kResidueIX (hit.hseq.getD r.pos ' ')
          if 0 ≤ ix2 then
            { r with
              nocc := r.nocc + 1
              dist := r.dist.set ix2.toNat (r.dist.getD ix2.toNat 0 + 1) }
          else r) r
      r'.dist.length = 20 ∧ r'.dist.sum = r'.nocc ∧ 0 < r'.nocc := by
  induction hits with
  | nil => exact fun r h1 h2 h3 => ⟨h1, h2, h3⟩
  | cons hit hits ih =>
    intro r h1 h2 h3
    simp only [List.foldl_cons]
    split_ifs with hc hx
    · exact ih r h1 h2 h3
    · refine ih _ ?_ ?_ ?_
      · show (r.dist.set (kResidueIX (hit.hseq.getD r.pos ' ')).toNat
            (r.dist.getD (kResidueIX (hit.hseq.getD r.pos ' ')).toNat 0 + 1)).length = 20
        rw [List.length_set]
        exact h1
      · have hix : (kResidueIX (hit.hseq.getD r.pos ' ')).toNat < r.dist.length := by
          have h20 := kResidueIX_lt_20 (hit.hseq.getD r.pos ' ')
          omega
        show (r.dist.set (kResidueIX (hit.hseq.getD r.pos ' ')).toNat
            (r.dist.getD (kResidueIX (hit.hseq.getD r.pos ' ')).toNat 0 + 1)).sum = r.nocc + 1
        rw [sum_set_getD_add_one r.dist _ hix, h2]
      · show 0 < r.nocc + 1
        omega
    · exact ih r h1 h2 h3

/-- Helper: the `ndel`/`nins` fold of `CalculateVariability` leaves the
`dist` buckets unchanged. -/
theorem ndelFold_dist (hits : List VHit) (gap : Bool) :
    ∀ (r : ResInfo),
      (hits.foldl (fun r hit =>
        if hit.chain ≠ r.chain then r
        else
          let tc := hit.hseq.getD r.pos ' '
          let r := if hit.habegin < r.pos ∧ r.pos < hit.haend ∧ is_gap tc then
              { r with ndel := r.ndel + 1 } else r
          if gap ∧ 'a' ≤ tc ∧ tc ≤ 'y' then { r with nins := r.nins + 1 }
          else r) r).dist = r.dist := by
  induction hits with
  | nil => exact fun r => rfl
  | cons hit hits ih =>
    intro r
    simp only [List.foldl_cons]
    rw [ih]
    split_ifs <;> rfl

/-- Helper: the rounded-percentage conversion sums to within 10 of 100. -/
theorem conv_sum_bounds (d : List Nat) (n : Nat) (hn : 0 < n)
    (hsum : d.sum = n) (hlen : d.length = 20) :
    90 ≤ (d.map (fun v : Nat =>
        (Rat.floor ((100 : ℚ) * ((v : ℚ) / (n : ℚ)) + 1/2)).toNat)).sum ∧
    (d.map (fun v : Nat =>
        (Rat.floor ((100 : ℚ) * ((v : ℚ) / (n : ℚ)) + 1/2)).toNat)).sum ≤ 110 := by
  have hn0 : ((n : ℚ)) ≠ 0 := by positivity
  have hfl : ∀ v : Nat, Rat.floor ((100 : ℚ) * ((v : ℚ) / (n : ℚ)) + 1/2) =
      ⌊(100 : ℚ) * ((v : ℚ) / (n : ℚ)) + 1/2⌋ := by
    intro v
    rw [Rat.floor_def', Rat.floor_def]
  have hq0 : ∀ v : Nat, (0 : ℚ) ≤ (100 : ℚ) * ((v : ℚ) / (n : ℚ)) + 1/2 := by
    intro v
    positivity
  -- cast the Nat sum into ℚ and bound it there
  have key : ∀ (l : List Nat),
      ((l.map (fun v : Nat =>
        (Rat.floor ((100 : ℚ) * ((v : ℚ) / (n : ℚ)) + 1/2)).toNat)).sum : ℚ) ≤
        (100 : ℚ) * ((l.sum : ℚ) / (n : ℚ)) + l.length * (1/2) ∧
      (100 : ℚ) * ((l.sum : ℚ) / (n : ℚ)) - l.length * (1/2) ≤
        ((l.map (fun v : Nat =>
          (Rat.floor ((100 : ℚ) * ((v : ℚ) / (n : ℚ)) + 1/2)).toNat)).sum : ℚ) := by
    intro l
    induction l with
    | nil => simp
    | cons v l ih =>
      have hfv := hfl v
      have hle : ((Rat.floor ((100 : ℚ) * ((v : ℚ) / (n : ℚ)) + 1/2)).toNat : ℚ) ≤
          (100 : ℚ) * ((v : ℚ) / (n : ℚ)) + 1/2 := by
        rw [hfv]
        have h1 : (0 : ℤ) ≤ ⌊(100 : ℚ) * ((v : ℚ) / (n : ℚ)) + 1/2⌋ :=
          Int.floor_nonneg.mpr (hq0 v)
        have h2 := Int.floor_le ((100 : ℚ) * ((v : ℚ) / (n : ℚ)) + 1/2)
        calc ((⌊(100 : ℚ) * ((v : ℚ) / (n : ℚ)) + 1/2⌋.toNat : ℕ) : ℚ)
            = ((⌊(100 : ℚ) * ((v : ℚ) / (n : ℚ)) + 1/2⌋ : ℤ) : ℚ) := by
              exact_mod_cast Int.toNat_of_nonneg h1
          _ ≤ _ := h2
      have hge : (100 : ℚ) * ((v : ℚ) / (n : ℚ)) + 1/2 - 1 ≤
          ((Rat.floor ((100 : ℚ) * ((v : ℚ) / (n : ℚ)) + 1/2)).toNat : ℚ) := by
        rw [hfv]
        have h1 : (0 : ℤ) ≤ ⌊(100 : ℚ) * ((v : ℚ) / (n : ℚ)) + 1/2⌋ :=
          Int.floor_nonneg.mpr (hq0 v)
        have h2 := Int.sub_one_lt_floor ((100 : ℚ) * ((v : ℚ) / (n : ℚ)) + 1/2)
        have h3 : ((⌊(100 : ℚ) * ((v : ℚ) / (n : ℚ)) + 1/2⌋.toNat : ℕ) : ℚ)
            = ((⌊(100 : ℚ) * ((v : ℚ) / (n : ℚ)) + 1/2⌋ : ℤ) : ℚ) := by
          exact_mod_cast Int.toNat_of_nonneg h1
        rw [h3]
        linarith
      have hd : (100 : ℚ) * (((v : ℚ) + (l.sum : ℚ)) / (n : ℚ)) =
          (100 : ℚ) * ((v : ℚ) / (n : ℚ)) + (100 : ℚ) * ((l.sum : ℚ) / (n : ℚ)) := by
        rw [add_div, mul_add]
      simp only [List.map_cons, List.sum_cons, List.length_cons, Nat.cast_add,
        Nat.cast_one, hd]
      constructor
      · have h1 := ih.1
        linarith
      · have h2 := ih.2
        linarith
  obtain ⟨hub, hlb⟩ := key d
  rw [hsum, hlen] at hub hlb
  have hnn : (100 : ℚ) * ((n : ℚ) / (n : ℚ)) = 100 := by
    rw [div_self hn0]
    norm_num
  rw [hnn] at hub hlb
  revert hub hlb
  generalize (d.map (fun v : Nat =>
      (Rat.floor ((100 : ℚ) * ((v : ℚ) / (n : ℚ)) + 1/2)).toNat)).sum = k
  intro hub hlb
  constructor
  · norm_num at hlb
    exact_mod_cast hlb
  · norm_num at hub
    exact_mod_cast hub

attribute [local semireducible] Rat.add Rat.mul Rat.sub Rat.inv in
set_option maxRecDepth 1000000 in
/-- C5 counterexample: for the residue info `c5res` (query letter `A`,
`nocc` seeded at 1) and the six hits `c5hits` carrying six further
distinct letters, `nocc` becomes 7, each of the seven occupied buckets
rounds to `floor(100/7 + 1/2) = 14`, and the converted `dist` sums to
`98`, outside the claimed `100 ± 1`. -/
theorem C5_counterexample :
    c5res.nocc = 1 ∧ c5hits ≠ [] ∧ 0 ≤ kResidueIX c5res.letter ∧
    (CalculateVariability c5res c5hits).nocc = 7 ∧
    (CalculateVariability c5res c5hits).dist.sum = 98 ∧
    ¬ (99 ≤ (CalculateVariability c5res c5hits).dist.sum ∧
        (CalculateVariability c5res c5hits).dist.sum ≤ 101) := by
  refine ⟨rfl, by decide, by decide, by decide, by decide, by decide⟩

/-- C5 (amended): for every residue info with the constructor's `nocc = 1`
whose letter has a valid residue index, and any non-empty hit list, the
20 converted `dist` buckets sum to within plus or minus 10 of 100 (each
of the at most 20 occupied buckets can round by at most 1/2 percent in
either direction; 100 ± 1 fails, see the counterexample). -/
theorem C5_dist_sum_within_ten (r : ResInfo) (hits : List VHit)
    (h1 : r.nocc = 1) (h2 : hits ≠ []) (h3 : 0 ≤ kResidueIX r.letter) :
    90 ≤ (CalculateVariability r hits).dist.sum ∧
    (CalculateVariability r hits).dist.sum ≤ 110 := by
  unfold CalculateVariability
  have hie : hits.isEmpty = false := by
    rcases hits with _ | _
    · exact absurd rfl h2
    · rfl
  rw [hie]
  simp only [Bool.false_eq_true, if_false, if_pos h3]
  have hlt : (kResidueIX r.letter).toNat < 20 := by
    have := kResidueIX_lt_20 r.letter
    omega
  have hbase : ((List.replicate 20 (0 : Nat)).set (kResidueIX r.letter).toNat
      ((List.replicate 20 (0 : Nat)).getD (kResidueIX r.letter).toNat 0 + 1)).sum
      = (List.replicate 20 (0 : Nat)).sum + 1 :=
    sum_set_getD_add_one _ _ (by simpa using hlt)
  have hbase' : ((List.replicate 20 (0 : Nat)).set
      (kResidueIX r.letter).toNat 1).sum = 1 := by
    have hg : (List.replicate 20 (0 : Nat)).getD (kResidueIX r.letter).toNat 0 = 0 := by
      rw [List.getD_eq_getElem?_getD, List.getElem?_replicate]
      split_ifs <;> rfl
    rw [hg] at hbase
    simpa using hbase
  have hinv := varFold_inv hits
    { r with dist := (List.replicate 20 (0 : Nat)).set (kResidueIX r.letter).toNat 1 }
    (by simp) (by simpa [h1] using hbase') (by simp [h1])
  obtain ⟨hlen20, hsumeq, hpos⟩ := hinv
  rw [ndelFold_dist]
  exact conv_sum_bounds _ _ hpos hsumeq hlen20

/-- C5 witness: the amended bound at the counterexample input. -/
theorem C5_dist_sum_within_ten_witness :
    (c5res.nocc = 1 ∧ c5hits ≠ [] ∧ 0 ≤ kResidueIX c5res.letter) ∧
    (90 ≤ (CalculateVariability c5res c5hits).dist.sum ∧
      (CalculateVariability c5res c5hits).dist.sum ≤ 110) :=
  ⟨⟨rfl, by decide, by decide⟩,
    C5_dist_sum_within_ten c5res c5hits rfl (by decide) (by decide)⟩

/-- C6 counterexample: a `seq` state satisfying
`alignment_begin ≤ alignment_end ≤ size` and a cut with `pos + n ≤ size`
after which `alignment_begin > alignment_end`: begin 5, end 7, size 7,
`cut(2, 2)` yields begin 3, end 2. -/
theorem C6_counterexample :
    (5 : Nat) ≤ 7 ∧ 7 ≤ (List.replicate 7 'A').length ∧
    2 + 2 ≤ (List.replicate 7 'A').length ∧
    ¬ ((cut ⟨List.replicate 7 'A', 5, 7⟩ 2 2).abegin ≤
        (cut ⟨List.replicate 7 'A', 5, 7⟩ 2 2).aend) := by decide

/-- C6 (amended): under the additional premise
`alignment_begin ≤ pos + n` - which holds for the loader's actual calls,
where `alignment_begin = 0` - `cut(pos, n)` preserves
`alignment_begin ≤ alignment_end ≤ size`, and both are 0 when the aligned
window ends at or before `pos`. -/
theorem C6_cut_invariant (s : HSeq) (pos n : Nat)
    (h1 : s.abegin ≤ s.aend) (h2 : s.aend ≤ s.chars.length)
    (h3 : pos + n ≤ s.chars.length) (h4 : s.abegin ≤ pos + n) :
    ((cut s pos n).abegin ≤ (cut s pos n).aend ∧
      (cut s pos n).aend ≤ (cut s pos n).chars.length) ∧
    (s.aend ≤ pos → (cut s pos n).abegin = 0 ∧ (cut s pos n).aend = 0) := by
  have hlen : ((s.chars.drop pos).take n).length = n := by
    simp only [List.length_take, List.length_drop]
    omega
  unfold cut
  simp only [hlen]
  split_ifs <;> omega

/-- C6 witness: the amended invariant at a concrete cut. -/
theorem C6_cut_invariant_witness :
    ((1 : Nat) ≤ 2 ∧ 2 ≤ (['A', 'B', 'C'] : List Char).length ∧
      1 + 2 ≤ (['A', 'B', 'C'] : List Char).length ∧ 1 ≤ 1 + 2) ∧
    (((cut ⟨['A', 'B', 'C'], 1, 2⟩ 1 2).abegin ≤ (cut ⟨['A', 'B', 'C'], 1, 2⟩ 1 2).aend ∧
      (cut ⟨['A', 'B', 'C'], 1, 2⟩ 1 2).aend ≤
        (cut ⟨['A', 'B', 'C'], 1, 2⟩ 1 2).chars.length) ∧
    ((2 : Nat) ≤ 1 → (cut ⟨['A', 'B', 'C'], 1, 2⟩ 1 2).abegin = 0 ∧
      (cut ⟨['A', 'B', 'C'], 1, 2⟩ 1 2).aend = 0)) :=
  ⟨⟨by decide, by decide, by decide, by decide⟩,
    C6_cut_invariant ⟨['A', 'B', 'C'], 1, 2⟩ 1 2 (by decide) (by decide)
      (by decide) (by decide)⟩

end Hssp

namespace Mas

/-- Helper: `getD` through `mapIdx` at an in-range index. -/
theorem getD_mapIdx {α β : Type} (l : List α) (f : Nat → α → β) (i : Nat)
    (d : β) (d0 : α) (h : i < l.length) :
    (l.mapIdx f).getD i d = f i (l.getD i d0) := by
  rw [List.getD_eq_getElem?_getD, List.getD_eq_getElem?_getD, List.getElem?_mapIdx,
    List.getElem?_eq_getElem h]
  rfl

/-- Helper: the `d = 0 .. 7` scan of `adjust_gp`, for any window, returns
the factor of the first distance in the window at which a gap or a
sequence boundary lies within reach. -/
theorem dScan_spec (gaps : List Nat) (L ix : Nat) :
    ∀ (fuel d0 : Nat), dScan gaps L ix d0 fuel =
      ((List.range' d0 fuel).find? (fun d =>
        decide (L ≤ ix + d ∨ 0 < gaps.getD (ix + d) 0 ∨ ix < d ∨
          0 < gaps.getD (ix - d) 0))).map
        (fun d => ((2 + (8 - d) * 2 : Nat) : ℚ) / 8) := by
  intro fuel
  induction fuel with
  | zero => intro d0; rfl
  | succ fuel ih =>
    intro d0
    rw [List.range'_succ]
    unfold dScan
    by_cases hc : L ≤ ix + d0 ∨ 0 < gaps.getD (ix + d0) 0 ∨ ix < d0 ∨
        0 < gaps.getD (ix - d0) 0
    · have hfind := @List.find?_cons_of_pos _
        (fun d => decide (L ≤ ix + d ∨ 0 < gaps.getD (ix + d) 0 ∨ ix < d ∨
          0 < gaps.getD (ix - d) 0)) d0 (List.range' (d0 + 1) fuel)
        (decide_eq_true hc)
      rw [if_pos hc, hfind]
      rfl
    · have hfind := @List.find?_cons_of_neg _
        (fun d => decide (L ≤ ix + d ∨ 0 < gaps.getD (ix + d) 0 ∨ ix < d ∨
          0 < gaps.getD (ix - d) 0)) d0 (List.range' (d0 + 1) fuel)
        (by simpa using hc)
      rw [if_neg hc, hfind]
      exact ih (d0 + 1)

/-- Helper: on a gap-free in-range column the `d = 0 .. 7` scan of
`adjust_gp` fires exactly at the least distance `1 ≤ d ≤ 7` reaching a gap
or a sequence boundary. -/
theorem dScan_eq_minGap (gaps : List Nat) (L ix : Nat) (hix : ix < L)
    (hno : gaps.getD ix 0 = 0) :
    dScan gaps L ix 0 8 = (minGapOrBoundaryDist gaps L ix).map
      (fun d => ((2 + (8 - d) * 2 : Nat) : ℚ) / 8) := by
  rw [dScan_spec gaps L ix 8 0]
  have h8 : List.range' 0 8 = 0 :: List.range' 1 7 := rfl
  have hfind := @List.find?_cons_of_neg _
    (fun d => decide (L ≤ ix + d ∨ 0 < gaps.getD (ix + d) 0 ∨ ix < d ∨
      0 < gaps.getD (ix - d) 0)) 0 (List.range' 1 7)
    (by simp only [Nat.add_zero, Nat.sub_zero, decide_eq_true_eq]; omega)
  rw [h8, hfind]
  rfl

attribute [local semireducible] Rat.add Rat.mul Rat.sub Rat.inv in
set_option maxRecDepth 100000 in
/-- C8 counterexample: in the single-row gap-free MSA `c8rows` no row has a
gap anywhere, yet column 1 receives the adjacency multiplier `14/8 = 7/4`
(the scan reaches the sequence start at `d = 2`), combined with the
residue-specific rule: `gop[1] = 1 * 7/4 * 93/100 = 651/400`, not the
`93/100` the claim predicts for a column with no gap within 8 columns. -/
theorem C8_counterexample :
    (∀ e ∈ c8rows, ∀ r ∈ e.seq, r ≠ kSignalGapCode) ∧
    (adjust_gp [1, 1, 1, 1] [1, 1, 1, 1] c8rows).1.getD 1 0 = 651/400 ∧
    (651 : ℚ)/400 ≠ 93/100 := by
  refine ⟨by decide, by decide, by norm_num⟩

/-- C8 (amended): for every input and every in-range column `ix` at which
no row has a gap, `adjust_gp` multiplies `gop[ix]` by the adjacency factor
`(2 + (8 - d)·2)/8` for the smallest `1 ≤ d ≤ 7` at which a gap *or a
sequence boundary* lies within reach (factor 1 when there is none), and
*in addition* by the hydrophilic (`/3`) or residue-specific
(`· rsp[ix]/rows`) adjustment; the claimed multiplier-only-on-gap-proximity
reading fails at boundaries (see the counterexample). -/
theorem C8_gap_free_column (gop gep : List ℚ) (rows : List Entry) (ix : Nat)
    (hix : ix < gop.length)
    (hno : (adjInspect rows gop.length).1.getD ix 0 = 0) :
    (adjust_gp gop gep rows).1.getD ix 0 =
      gop.getD ix 0 *
      gapAdjacencyFactor (adjInspect rows gop.length).1 gop.length ix *
      (if (adjInspect rows gop.length).2.2.getD ix false then (3 : ℚ)⁻¹
       else (adjInspect rows gop.length).2.1.getD ix 0 / (rows.length : ℚ)) := by
  unfold adjust_gp
  rw [getD_mapIdx gop _ ix 0 0 hix]
  rw [if_neg (by omega)]
  rw [dScan_eq_minGap _ _ _ hix hno]
  unfold gapAdjacencyFactor
  rcases hmin : minGapOrBoundaryDist (adjInspect rows gop.length).1 gop.length ix
      with _ | d <;>
    rcases hhyd : (adjInspect rows gop.length).2.2.getD ix false with _ | _ <;>
    simp only [Option.map_none', Option.map_some', hhyd, Bool.false_eq_true,
      if_false, if_true] <;>
    ring

attribute [local semireducible] Rat.add Rat.mul Rat.sub Rat.inv in
set_option maxRecDepth 100000 in
/-- C8 witness: the amended rule evaluated on the counterexample input. -/
theorem C8_gap_free_column_witness :
    (1 < ([1, 1, 1, 1] : List ℚ).length ∧
      (adjInspect c8rows 4).1.getD 1 0 = 0) ∧
    (adjust_gp [1, 1, 1, 1] [1, 1, 1, 1] c8rows).1.getD 1 0 =
      ([1, 1, 1, 1] : List ℚ).getD 1 0 *
      gapAdjacencyFactor (adjInspect c8rows 4).1 4 1 *
      (if (adjInspect c8rows 4).2.2.getD 1 false then (3 : ℚ)⁻¹
       else (adjInspect c8rows 4).2.1.getD 1 0 / (c8rows.length : ℚ)) :=
  ⟨⟨by decide, by decide⟩,
    C8_gap_free_column [1, 1, 1, 1] [1, 1, 1, 1] c8rows 1 (by decide) (by decide)⟩

/-- Helper: the per-column gap-open adjustment equals multiplication by
`gopFactor`. -/
theorem adjust_gop_pointwise (rows : List Entry) (L : Nat) (ix : Nat) (g : ℚ) :
    (if 0 < (adjInspect rows L).1.getD ix 0 then
      g * ((3/10) * (((rows.length - (adjInspect rows L).1.getD ix 0 : Nat) : ℚ) /
        (rows.length : ℚ)))
    else
      let g1 := match dScan (adjInspect rows L).1 L ix 0 8 with
        | some f => g * f
        | none => g
      if (adjInspect rows L).2.2.getD ix false then g1 / 3
      else g1 * ((adjInspect rows L).2.1.getD ix 0 / (rows.length : ℚ))) =
    g * gopFactor rows L ix := by
  simp only [gopFactor]
  by_cases hgap : 0 < (adjInspect rows L).1.getD ix 0
  · rw [if_pos hgap, if_pos hgap]
  · rw [if_neg hgap, if_neg hgap]
    rcases hd : dScan (adjInspect rows L).1 L ix 0 8 with _ | f <;>
      by_cases hhyd : (adjInspect rows L).2.2.getD ix false <;>
      simp only [hhyd, Bool.false_eq_true, if_false, if_true] <;>
      ring

/-- C9 (amended): `adjust_gp` is pointwise multiplication of the incoming
penalty vectors by factors `gopFactor`/`gepFactor` computed from the rows
alone (the inspection data); in this pure model the rows are returned
untouched by construction.  Idempotence fails because the factors are
re-applied on a second run (see the counterexample). -/
theorem C9_factor_scaling (gop gep : List ℚ) (rows : List Entry) :
    adjust_gp gop gep rows =
      (gop.mapIdx (fun ix g => g * gopFactor rows gop.length ix),
       gep.mapIdx (fun ix v => v * gepFactor rows gop.length ix)) := by
  unfold adjust_gp
  refine Prod.ext ?_ ?_
  · refine List.ext_getElem (by simp) ?_
    intro i hi1 hi2
    simp only [List.getElem_mapIdx]
    exact adjust_gop_pointwise rows gop.length i _
  · refine List.ext_getElem (by simp) ?_
    intro i hi1 hi2
    simp only [List.getElem_mapIdx]
    unfold gepFactor
    split_ifs with hgap
    · rw [div_eq_mul_inv]
      norm_num
    · ring

attribute [local semireducible] Rat.add Rat.mul Rat.sub Rat.inv in
set_option maxRecDepth 100000 in
/-- C9 counterexample: on `c9rows` (a gap in row 0 column 1) one run maps
`gep = [1,1]` to `[1, 1/2]`, a second run maps it to `[1, 1/4]`: the
adjustment is not idempotent. -/
theorem C9_counterexample :
    (adjust_gp [1, 1] [1, 1] c9rows).2.getD 1 0 = 1/2 ∧
    (adjust_gp (adjust_gp [1, 1] [1, 1] c9rows).1
        (adjust_gp [1, 1] [1, 1] c9rows).2 c9rows).2.getD 1 0 = 1/4 ∧
    adjust_gp (adjust_gp [1, 1] [1, 1] c9rows).1
        (adjust_gp [1, 1] [1, 1] c9rows).2 c9rows ≠
      adjust_gp [1, 1] [1, 1] c9rows := by
  refine ⟨by decide, by decide, ?_⟩
  intro hcon
  have h1 : (adjust_gp (adjust_gp [1, 1] [1, 1] c9rows).1
      (adjust_gp [1, 1] [1, 1] c9rows).2 c9rows).2.getD 1 0 =
      (adjust_gp [1, 1] [1, 1] c9rows).2.getD 1 0 := by rw [hcon]
  revert h1
  decide

/-- Monotonicity of the diagonal prefix scores. -/
theorem dDiag_mono (mat : Nat → Nat → ℚ) (s : List Nat)
    (hpos : ∀ i, 0 < mat i i) :
    ∀ {k l : Nat}, k ≤ l → dDiag mat s k ≤ dDiag mat s l := by
  intro k l h
  induction l with
  | zero => simp [Nat.le_zero.mp h]
  | succ l ih =>
    rcases Nat.lt_or_ge k (l + 1) with hl | hl
    · have := ih (Nat.lt_succ_iff.mp hl)
      have hp := hpos (s.getD (l + 1) 0)
      calc dDiag mat s k ≤ dDiag mat s l := this
        _ ≤ dDiag mat s l + mat (s.getD (l + 1) 0) (s.getD (l + 1) 0) := by linarith
        _ = dDiag mat s (l + 1) := rfl
    · have : k = l + 1 := le_antisymm h hl
      simp [this]

/-- Positivity of the diagonal prefix scores. -/
theorem dDiag_pos (mat : Nat → Nat → ℚ) (s : List Nat)
    (hpos : ∀ i, 0 < mat i i) : ∀ k, 0 < dDiag mat s k := by
  intro k
  induction k with
  | zero => exact hpos _
  | succ k ih =>
    have := hpos (s.getD (k + 1) 0)
    show 0 < dDiag mat s k + mat (s.getD (k + 1) 0) (s.getD (k + 1) 0)
    linarith

/-- Helper: extending the processed set by one cell. -/
theorem dProc_succ {x y a b : Nat} (h : dProc x (y + 1) a b) :
    (a = x ∧ b = y) ∨ dProc x y a b := by
  rcases h with h | ⟨h1, h2⟩
  · exact Or.inr (Or.inl h)
  · rcases Nat.lt_or_ge b y with h3 | h3
    · exact Or.inr (Or.inr ⟨h1, h3⟩)
    · exact Or.inl ⟨h1, by omega⟩

/-- `dcell` on the full rectangle, written with the named cell
quantities. -/
theorem dcell_eq (mat : Nat → Nat → ℚ) (sa sb : List Nat) (n : Nat)
    (st : DState) (x y : Nat) :
    dcell mat sa sb 0 0 n n st x y =
      { mB := upd st.mB (x, y) (cSI mat sa sb st x y).1
        mIx := upd st.mIx (x, y)
          (max (cM mat sa sb st x y - kDistanceGapOpen)
            (cIx1 st x y - kDistanceGapExtend))
        mIy := upd st.mIy (x, y)
          (max (cM mat sa sb st x y - kDistanceGapOpen)
            (cIy1 st x y - kDistanceGapExtend))
        mId := upd st.mId (x, y) (cSI mat sa sb st x y).2
        high := (if (x = n - 1 ∨ y = n - 1) ∧
            (match st.high with
              | none => true
              | some h => decide (h < (cSI mat sa sb st x y).1)) = true then
            (some (cSI mat sa sb st x y).1, (cSI mat sa sb st x y).2)
          else (st.high, st.highIdSub)).1
        highIdSub := (if (x = n - 1 ∨ y = n - 1) ∧
            (match st.high with
              | none => true
              | some h => decide (h < (cSI mat sa sb st x y).1)) = true then
            (some (cSI mat sa sb st x y).1, (cSI mat sa sb st x y).2)
          else (st.high, st.highIdSub)).2 } := rfl

/-- The chosen score is one of the three candidate scores. -/
theorem cSI_fst_cases (mat : Nat → Nat → ℚ) (sa sb : List Nat) (st : DState)
    (x y : Nat) :
    (cSI mat sa sb st x y).1 = cM mat sa sb st x y ∨
    (cSI mat sa sb st x y).1 = cIx1 st x y ∨
    (cSI mat sa sb st x y).1 = cIy1 st x y := by
  unfold cSI
  split_ifs <;> simp

/-- When both gap scores are dominated the match branch is chosen. -/
theorem cSI_eq_M (mat : Nat → Nat → ℚ) (sa sb : List Nat) (st : DState)
    (x y : Nat) (h1 : cIx1 st x y ≤ cM mat sa sb st x y)
    (h2 : cIy1 st x y ≤ cM mat sa sb st x y) :
    cSI mat sa sb st x y =
      (cM mat sa sb st x y,
       (if sa.getD x 0 = sb.getD y 0 then 1 else 0) +
         (if 0 < x ∧ 0 < y then st.mId (x - 1, y - 1) else 0)) := by
  unfold cSI
  exact if_pos ⟨h1, h2⟩

/-- The step equation of the diagonal prefix scores. -/
theorem dDiag_step (mat : Nat → Nat → ℚ) (s : List Nat) (m : Nat) (hm : 0 < m) :
    dDiag mat s m = dDiag mat s (m - 1) + mat (s.getD m 0) (s.getD m 0) := by
  rcases m with _ | m0
  · omega
  · simp only [Nat.succ_sub_one]
    rfl

/-- One cell of the self-distance DP preserves the invariant (away from
the bottom-right corner). -/
theorem dcell_inv (mat : Nat → Nat → ℚ) (s : List Nat)
    (hdom : ∀ i j, mat i j ≤ mat i i ∧ mat i j ≤ mat j j)
    (hpos : ∀ i, 0 < mat i i)
    (x y : Nat) (st : DState) (hx : x < s.length) (hy : y < s.length)
    (hcorner : ¬(x = s.length - 1 ∧ y = s.length - 1))
    (hinv : dInv mat s x y st) :
    dInv mat s x (y + 1) (dcell mat s s 0 0 s.length s.length st x y) := by
  obtain ⟨hB, hD, hH⟩ := hinv
  have hIx1 : cIx1 st x y ≤ dDiag mat s (min x y) := by
    unfold cIx1
    split_ifs with h0
    · calc st.mIx (x - 1, y) ≤ dDiag mat s (min (x - 1) y) :=
        (hB (x - 1) y (by omega) hy (Or.inl (by omega))).2.1
      _ ≤ dDiag mat s (min x y) := dDiag_mono mat s hpos (by omega)
    · have := dDiag_pos mat s hpos (min x y)
      linarith
  have hIy1 : cIy1 st x y ≤ dDiag mat s (min x y) := by
    unfold cIy1
    split_ifs with h0
    · calc st.mIy (x, y - 1) ≤ dDiag mat s (min x (y - 1)) :=
        (hB x (y - 1) hx (by omega) (Or.inr ⟨rfl, by omega⟩)).2.2
      _ ≤ dDiag mat s (min x y) := dDiag_mono mat s hpos (by omega)
    · have := dDiag_pos mat s hpos (min x y)
      linarith
  have hM0 : mat (s.getD x 0) (s.getD y 0) ≤
      mat (s.getD (min x y) 0) (s.getD (min x y) 0) := by
    rcases Nat.le_total x y with h | h
    · rw [min_eq_left h]
      exact (hdom (s.getD x 0) (s.getD y 0)).1
    · rw [min_eq_right h]
      exact (hdom (s.getD x 0) (s.getD y 0)).2
  have hM : cM mat s s st x y ≤ dDiag mat s (min x y) := by
    unfold cM
    split_ifs with h0
    · have hBp := (hB (x - 1) (y - 1) (by omega) (by omega) (Or.inl (by omega))).1
      have hmin : min (x - 1) (y - 1) = min x y - 1 := by omega
      rw [hmin] at hBp
      rw [dDiag_step mat s (min x y) (by omega)]
      linarith
    · have hmin0 : min x y = 0 := by omega
      rw [hmin0]
      rw [hmin0] at hM0
      exact hM0
  have hSle : (cSI mat s s st x y).1 ≤ dDiag mat s (min x y) := by
    rcases cSI_fst_cases mat s s st x y with h | h | h <;> rw [h]
    · exact hM
    · exact hIx1
    · exact hIy1
  rw [dcell_eq]
  refine ⟨?_, ?_, ?_⟩
  · intro a b ha hb hproc
    rcases dProc_succ hproc with ⟨hax, hby⟩ | hold
    · subst hax
      subst hby
      simp only [upd, if_pos rfl]
      refine ⟨hSle, ?_, ?_⟩
      · refine max_le ?_ ?_
        · unfold kDistanceGapOpen
          linarith
        · unfold kDistanceGapExtend
          linarith
      · refine max_le ?_ ?_
        · unfold kDistanceGapOpen
          linarith
        · unfold kDistanceGapExtend
          linarith
    · have hne : ¬ ((a, b) = (x, y)) := by
        intro hcon
        rw [Prod.mk.injEq] at hcon
        rcases hold with h | ⟨_, h⟩ <;> omega
      simp only [upd, if_neg hne]
      exact hB a b ha hb hold
  · intro k hk hproc
    rcases dProc_succ hproc with ⟨hax, hby⟩ | hold
    · subst hax
      have hyk : y = k := hby.symm
      rw [hyk] at hIx1 hIy1 hM
      simp only [min_self] at hIx1 hIy1 hM
      have hMeq : cM mat s s st k k = dDiag mat s k := by
        unfold cM
        split_ifs with h0
        · rw [(hD (k - 1) (by omega) (Or.inl (by omega))).1]
          rw [dDiag_step mat s k (by omega)]
          ring
        · have hk0 : k = 0 := by omega
          subst hk0
          rfl
      have hsi := cSI_eq_M mat s s st k k (by rw [hMeq]; exact hIx1)
        (by rw [hMeq]; exact hIy1)
      have heq : ((k, k) : Nat × Nat) = (k, y) := by rw [hyk]
      simp only [upd, if_pos heq]
      rw [hyk, hsi]
      refine ⟨hMeq, ?_⟩
      have h1 : (if s.getD k 0 = s.getD k 0 then (1 : Nat) else 0) = 1 := if_pos rfl
      show (if s.getD k 0 = s.getD k 0 then (1 : Nat) else 0) +
        (if 0 < k ∧ 0 < k then st.mId (k - 1, k - 1) else 0) = k + 1
      rw [h1]
      by_cases h0 : 0 < k ∧ 0 < k
      · rw [if_pos h0, (hD (k - 1) (by omega) (Or.inl (by omega))).2]
        omega
      · rw [if_neg h0]
        omega
    · have hne : ¬ ((k, k) = (x, y)) := by
        intro hcon
        rw [Prod.mk.injEq] at hcon
        rcases hold with h | ⟨_, h⟩ <;> omega
      simp only [upd, if_neg hne]
      exact hD k hk hold
  · by_cases hcond : (x = s.length - 1 ∨ y = s.length - 1) ∧
        (match st.high with
          | none => true
          | some h => decide (h < (cSI mat s s st x y).1)) = true
    · simp only [if_pos hcond]
      have hmin2 : min x y ≤ s.length - 2 ∧ 2 ≤ s.length := by
        rcases hcond.1 with h | h <;> omega
      refine ⟨hmin2.2, ?_⟩
      calc (cSI mat s s st x y).1 ≤ dDiag mat s (min x y) := hSle
        _ ≤ dDiag mat s (s.length - 2) := dDiag_mono mat s hpos hmin2.1
    · simp only [if_neg hcond]
      exact hH

/-- At a processed-diagonal scan point the cell quantities of the diagonal
cell are exact. -/
theorem cSI_diag (mat : Nat → Nat → ℚ) (s : List Nat)
    (hpos : ∀ i, 0 < mat i i) (k : Nat) (st : DState) (hk : k < s.length)
    (hinv : dInv mat s k k st) :
    cSI mat s s st k k = (dDiag mat s k, k + 1) := by
  obtain ⟨hB, hD, hH⟩ := hinv
  have hIx1 : cIx1 st k k ≤ dDiag mat s k := by
    unfold cIx1
    split_ifs with h0
    · calc st.mIx (k - 1, k) ≤ dDiag mat s (min (k - 1) k) :=
        (hB (k - 1) k (by omega) hk (Or.inl (by omega))).2.1
      _ ≤ dDiag mat s k := dDiag_mono mat s hpos (by omega)
    · have := dDiag_pos mat s hpos k
      linarith
  have hIy1 : cIy1 st k k ≤ dDiag mat s k := by
    unfold cIy1
    split_ifs with h0
    · calc st.mIy (k, k - 1) ≤ dDiag mat s (min k (k - 1)) :=
        (hB k (k - 1) hk (by omega) (Or.inr ⟨rfl, by omega⟩)).2.2
      _ ≤ dDiag mat s k := dDiag_mono mat s hpos (by omega)
    · have := dDiag_pos mat s hpos k
      linarith
  have hMeq : cM mat s s st k k = dDiag mat s k := by
    unfold cM
    split_ifs with h0
    · rw [(hD (k - 1) (by omega) (Or.inl (by omega))).1]
      rw [dDiag_step mat s k (by omega)]
      ring
    · have hk0 : k = 0 := by omega
      subst hk0
      rfl
  rw [cSI_eq_M mat s s st k k (by rw [hMeq]; exact hIx1) (by rw [hMeq]; exact hIy1)]
  rw [Prod.mk.injEq]
  refine ⟨hMeq, ?_⟩
  have h1 : (if s.getD k 0 = s.getD k 0 then (1 : Nat) else 0) = 1 := if_pos rfl
  rw [h1]
  by_cases h0 : 0 < k ∧ 0 < k
  · rw [if_pos h0, (hD (k - 1) (by omega) (Or.inl (by omega))).2]
    omega
  · rw [if_neg h0]
    omega

/-- The bottom-right corner cell wins the boundary comparison and sets the
identity count to the full length. -/
theorem dcell_corner (mat : Nat → Nat → ℚ) (s : List Nat)
    (hpos : ∀ i, 0 < mat i i) (st : DState) (hn : 0 < s.length)
    (hinv : dInv mat s (s.length - 1) (s.length - 1) st) :
    (dcell mat s s 0 0 s.length s.length st (s.length - 1)
      (s.length - 1)).highIdSub = s.length := by
  have hdiag := cSI_diag mat s hpos (s.length - 1) st (by omega) hinv
  obtain ⟨hB, hD, hH⟩ := hinv
  have hOk : (match st.high with
      | none => true
      | some h => decide (h < (cSI mat s s st (s.length - 1) (s.length - 1)).1))
        = true := by
    rcases hst : st.high with _ | v
    · rfl
    · rw [hst] at hH
      obtain ⟨h2, hv⟩ := hH
      have hlt : v < (cSI mat s s st (s.length - 1) (s.length - 1)).1 := by
        rw [hdiag]
        have hstep := dDiag_step mat s (s.length - 1) (by omega)
        have hp := hpos (s.getD (s.length - 1) 0)
        have hsub : s.length - 1 - 1 = s.length - 2 := by omega
        rw [hsub] at hstep
        show v < dDiag mat s (s.length - 1)
        rw [hstep]
        linarith
      simp only [decide_eq_true hlt]
  rw [dcell_eq]
  have hcond : ((s.length - 1 = s.length - 1 ∨ s.length - 1 = s.length - 1) ∧
      (match st.high with
        | none => true
        | some h => decide (h < (cSI mat s s st (s.length - 1) (s.length - 1)).1))
          = true) := ⟨Or.inl rfl, hOk⟩
  show (if ((s.length - 1 = s.length - 1 ∨ s.length - 1 = s.length - 1) ∧
      (match st.high with
        | none => true
        | some h => decide (h < (cSI mat s s st (s.length - 1) (s.length - 1)).1))
          = true) then
      (some (cSI mat s s st (s.length - 1) (s.length - 1)).1,
        (cSI mat s s st (s.length - 1) (s.length - 1)).2)
    else (st.high, st.highIdSub)).2 = s.length
  rw [if_pos hcond]
  show (cSI mat s s st (s.length - 1) (s.length - 1)).2 = s.length
  rw [hdiag]
  show s.length - 1 + 1 = s.length
  omega

/-- Lifting the cell invariant through one DP column. -/
theorem dcolGo_inv (mat : Nat → Nat → ℚ) (s : List Nat)
    (hdom : ∀ i j, mat i j ≤ mat i i ∧ mat i j ≤ mat j j)
    (hpos : ∀ i, 0 < mat i i) (x : Nat) (hx : x < s.length) :
    ∀ (k y : Nat) (st : DState), y + k ≤ s.length →
      (x = s.length - 1 → y + k ≤ s.length - 1) →
      dInv mat s x y st →
      dInv mat s x (y + k) (dcolGo mat s s 0 0 s.length s.length x st y k) := by
  intro k
  induction k with
  | zero => intro y st _ _ hinv; exact hinv
  | succ k ih =>
    intro y st h1 h2 hinv
    have hy : y < s.length := by omega
    have hcorner : ¬(x = s.length - 1 ∧ y = s.length - 1) := by
      intro ⟨ha, hb⟩
      have := h2 ha
      omega
    have hcell := dcell_inv mat s hdom hpos x y st hx hy hcorner hinv
    have hrec := ih (y + 1) (dcell mat s s 0 0 s.length s.length st x y)
      (by omega) (fun ha => by have := h2 ha; omega) hcell
    have heq : y + 1 + k = y + (k + 1) := by omega
    rw [heq] at hrec
    exact hrec

/-- Moving the scan to the head of the next column. -/
theorem dInv_shift (mat : Nat → Nat → ℚ) (s : List Nat) {x : Nat} {st : DState}
    (h : dInv mat s x s.length st) : dInv mat s (x + 1) 0 st := by
  obtain ⟨hB, hD, hH⟩ := h
  refine ⟨?_, ?_, hH⟩
  · intro a b ha hb hproc
    rcases hproc with hp | ⟨_, hp⟩
    · rcases Nat.lt_or_ge a x with h1 | h1
      · exact hB a b ha hb (Or.inl h1)
      · exact hB a b ha hb (Or.inr ⟨by omega, hb⟩)
    · omega
  · intro a ha hproc
    rcases hproc with hp | ⟨_, hp⟩
    · rcases Nat.lt_or_ge a x with h1 | h1
      · exact hD a ha (Or.inl h1)
      · exact hD a ha (Or.inr ⟨by omega, ha⟩)
    · omega

/-- Lifting the invariant through a block of full DP columns. -/
theorem drectGo_inv (mat : Nat → Nat → ℚ) (s : List Nat)
    (hdom : ∀ i j, mat i j ≤ mat i i ∧ mat i j ≤ mat j j)
    (hpos : ∀ i, 0 < mat i i) :
    ∀ (j x : Nat) (st : DState), x + j ≤ s.length - 1 → 0 < s.length →
      dInv mat s x 0 st →
      dInv mat s (x + j) 0 (drectGo mat s s 0 0 s.length s.length st x j) := by
  intro j
  induction j with
  | zero => intro x st _ _ hinv; exact hinv
  | succ j ih =>
    intro x st h1 h2 hinv
    have hx : x < s.length := by omega
    have hcol := dcolGo_inv mat s hdom hpos x hx s.length 0 st (by omega)
      (fun ha => by omega) hinv
    have hcol0 : dInv mat s x s.length
        (dcolGo mat s s 0 0 s.length s.length x st 0 s.length) := by
      have heq : 0 + s.length = s.length := by omega
      rw [heq] at hcol
      exact hcol
    have hshift := dInv_shift mat s hcol0
    have hrec := ih (x + 1)
      (dcolGo mat s s 0 0 s.length s.length x st 0 s.length)
      (by omega) h2 hshift
    have heq2 : x + 1 + j = x + (j + 1) := by omega
    rw [heq2] at hrec
    show dInv mat s (x + (j + 1)) 0
      (drectGo mat s s 0 0 s.length s.length
        (dcolGo mat s s 0 0 s.length s.length x st 0 (s.length - 0)) (x + 1) j)
    have hs0 : s.length - 0 = s.length := rfl
    rw [hs0]
    exact hrec

/-- Splitting the last cell off a column run. -/
theorem dcolGo_succ (mat : Nat → Nat → ℚ) (sa sb : List Nat) (n x : Nat) :
    ∀ (k y : Nat) (st : DState),
      dcolGo mat sa sb 0 0 n n x st y (k + 1) =
        dcell mat sa sb 0 0 n n (dcolGo mat sa sb 0 0 n n x st y k) x (y + k) := by
  intro k
  induction k with
  | zero => intro y st; rfl
  | succ k ih =>
    intro y st
    show dcolGo mat sa sb 0 0 n n x (dcell mat sa sb 0 0 n n st x y) (y + 1) (k + 1) = _
    rw [ih (y + 1) (dcell mat sa sb 0 0 n n st x y)]
    have heq : y + 1 + k = y + (k + 1) := by omega
    rw [heq]
    rfl

/-- Splitting the last column off a rectangle run. -/
theorem drectGo_succ (mat : Nat → Nat → ℚ) (sa sb : List Nat) (n : Nat) :
    ∀ (k x : Nat) (st : DState),
      drectGo mat sa sb 0 0 n n st x (k + 1) =
        dcolGo mat sa sb 0 0 n n (x + k) (drectGo mat sa sb 0 0 n n st x k)
          0 (n - 0) := by
  intro k
  induction k with
  | zero => intro x st; rfl
  | succ k ih =>
    intro x st
    show drectGo mat sa sb 0 0 n n
      (dcolGo mat sa sb 0 0 n n x st 0 (n - 0)) (x + 1) (k + 1) = _
    rw [ih (x + 1) (dcolGo mat sa sb 0 0 n n x st 0 (n - 0))]
    have heq : x + 1 + k = x + (k + 1) := by omega
    rw [heq]
    rfl

/-- The full self-distance rectangle ends with identity count
`s.length`. -/
theorem drect_full (mat : Nat → Nat → ℚ) (s : List Nat)
    (hdom : ∀ i j, mat i j ≤ mat i i ∧ mat i j ≤ mat j j)
    (hpos : ∀ i, 0 < mat i i) (hn : 0 < s.length) (st0 : DState)
    (hinv : dInv mat s 0 0 st0) :
    (drectGo mat s s 0 0 s.length s.length st0 0 s.length).highIdSub
      = s.length := by
  have hone : s.length - 1 + 1 = s.length := by omega
  have hsp := drectGo_succ mat s s s.length (s.length - 1) 0 st0
  simp only [Nat.sub_zero, Nat.zero_add, hone] at hsp
  rw [hsp]
  have hcs := dcolGo_succ mat s s s.length (s.length - 1) (s.length - 1) 0
    (drectGo mat s s 0 0 s.length s.length st0 0 (s.length - 1))
  simp only [Nat.zero_add, hone] at hcs
  rw [hcs]
  have hrect := drectGo_inv mat s hdom hpos (s.length - 1) 0 st0 (by omega) hn hinv
  simp only [Nat.zero_add] at hrect
  have hcol := dcolGo_inv mat s hdom hpos (s.length - 1) (by omega) (s.length - 1)
    0 _ (by omega) (fun _ => by omega) hrect
  simp only [Nat.zero_add] at hcol
  exact dcell_corner mat s hpos _ hn hcol

/-- The initial DP state of the unanchored distance run satisfies the
invariant. -/
theorem dInv_init (mat : Nat → Nat → ℚ) (s : List Nat) (st : DState)
    (hhigh : st.high = none) : dInv mat s 0 0 st := by
  refine ⟨?_, ?_, ?_⟩
  · intro a b _ _ hproc
    rcases hproc with h | ⟨_, h⟩ <;> omega
  · intro k _ hproc
    rcases hproc with h | ⟨_, h⟩ <;> omega
  · rw [hhigh]
    trivial

/-- Without position anchors, `calculateDistance(s, s)` accumulates the
full identity count `s.length`. -/
theorem distHighId_self (mat : Nat → Nat → ℚ) (s : List Nat)
    (hdom : ∀ i j, mat i j ≤ mat i i ∧ mat i j ≤ mat j j)
    (hpos : ∀ i, 0 < mat i i) (hn : 0 < s.length) :
    distHighId mat s s [] [] = s.length := by
  unfold distHighId
  simp only [List.isEmpty_nil, true_or, if_true]
  rw [show 2 * (s.length + s.length) + 2 = (2 * (s.length + s.length) + 1) + 1
    from rfl]
  unfold dloop
  rw [if_pos ⟨hn, hn⟩]
  rw [if_neg (by intro h; omega)]
  rw [show s.length + s.length + 2 = (s.length + s.length + 1) + 1 from rfl]
  unfold advanceWindow
  rw [if_pos (by omega)]
  rw [if_neg (by omega)]
  unfold dloop
  rw [if_neg (by omega)]
  rw [Nat.zero_add]
  rw [show s.length - 0 = s.length from rfl]
  exact drect_full mat s hdom hpos hn _ (dInv_init mat s _ rfl)

/-- `acell` on the full rectangle, written with the named cell
quantities. -/
theorem acell_eq (mat : Nat → Nat → ℚ) (a b : List Entry)
    (gopa gepa gopb gepb : List ℚ) (n : Nat) (st : AState) (x y : Nat) :
    acell mat a b gopa gepa gopb gepb n n 0 0 n n st x y =
      { mB := upd st.mB (x, y) (aST mat a b st x y).1
        mIx := upd st.mIx (x, y)
          (max (aM mat a b st x y - (if x < n - 1 then gopa.getD x 0 else 0))
            (aIx1 st x y - gepa.getD x 0))
        mIy := upd st.mIy (x, y)
          (max (aM mat a b st x y - (if y < n - 1 then gopb.getD y 0 else 0))
            (aIy1 st x y - gepb.getD y 0))
        tb := upd st.tb (x, y) (aST mat a b st x y).2
        high := (if (x = n - 1 ∨ y = n - 1) ∧ st.high ≤ (aST mat a b st x y).1 then
            ((aST mat a b st x y).1, x, y)
          else (st.high, st.highX, st.highY)).1
        highX := (if (x = n - 1 ∨ y = n - 1) ∧ st.high ≤ (aST mat a b st x y).1 then
            ((aST mat a b st x y).1, x, y)
          else (st.high, st.highX, st.highY)).2.1
        highY := (if (x = n - 1 ∨ y = n - 1) ∧ st.high ≤ (aST mat a b st x y).1 then
            ((aST mat a b st x y).1, x, y)
          else (st.high, st.highX, st.highY)).2.2 } := rfl

/-- The chosen score is one of the three candidate scores. -/
theorem aST_fst_cases (mat : Nat → Nat → ℚ) (a b : List Entry) (st : AState)
    (x y : Nat) :
    (aST mat a b st x y).1 = aM mat a b st x y ∨
    (aST mat a b st x y).1 = aIx1 st x y ∨
    (aST mat a b st x y).1 = aIy1 st x y := by
  unfold aST
  split_ifs <;> simp

/-- When both gap scores are dominated the match branch is chosen. -/
theorem aST_eq_M (mat : Nat → Nat → ℚ) (a b : List Entry) (st : AState)
    (x y : Nat) (h1 : aIx1 st x y ≤ aM mat a b st x y)
    (h2 : aIy1 st x y ≤ aM mat a b st x y) :
    aST mat a b st x y = (aM mat a b st x y, 0) := by
  unfold aST
  exact if_pos ⟨h1, h2⟩

/-- Monotonicity of the diagonal profile scores. -/
theorem aDiag_mono (mat : Nat → Nat → ℚ) (a b : List Entry)
    (hsc0 : ∀ k, 0 ≤ score mat a b k k) :
    ∀ {k l : Nat}, k ≤ l → aDiag mat a b k ≤ aDiag mat a b l := by
  intro k l h
  induction l with
  | zero => simp [Nat.le_zero.mp h]
  | succ l ih =>
    rcases Nat.lt_or_ge k (l + 1) with hl | hl
    · have := ih (Nat.lt_succ_iff.mp hl)
      have hp := hsc0 (l + 1)
      calc aDiag mat a b k ≤ aDiag mat a b l := this
        _ ≤ aDiag mat a b l + score mat a b (l + 1) (l + 1) := by linarith
        _ = aDiag mat a b (l + 1) := rfl
    · have : k = l + 1 := le_antisymm h hl
      simp [this]

/-- Non-negativity of the diagonal profile scores. -/
theorem aDiag_nonneg (mat : Nat → Nat → ℚ) (a b : List Entry)
    (hsc0 : ∀ k, 0 ≤ score mat a b k k) : ∀ k, 0 ≤ aDiag mat a b k := by
  intro k
  induction k with
  | zero => exact hsc0 0
  | succ k ih =>
    have := hsc0 (k + 1)
    show 0 ≤ aDiag mat a b k + score mat a b (k + 1) (k + 1)
    linarith

/-- The step equation of the diagonal profile scores. -/
theorem aDiag_step (mat : Nat → Nat → ℚ) (a b : List Entry) (m : Nat)
    (hm : 0 < m) :
    aDiag mat a b m = aDiag mat a b (m - 1) + score mat a b m m := by
  rcases m with _ | m0
  · omega
  · simp only [Nat.succ_sub_one]
    rfl

/-- One cell of the self-alignment DP preserves the invariant (away from
the bottom-right corner). -/
theorem acell_inv (mat : Nat → Nat → ℚ) (a b : List Entry)
    (gopa gepa gopb gepb : List ℚ) (n : Nat)
    (hscd : ∀ x y, score mat a b x y ≤ score mat a b (min x y) (min x y))
    (hsc0 : ∀ k, 0 ≤ score mat a b k k)
    (hgopa : ∀ i, 0 ≤ gopa.getD i 0) (hgepa : ∀ i, 0 ≤ gepa.getD i 0)
    (hgopb : ∀ i, 0 ≤ gopb.getD i 0) (hgepb : ∀ i, 0 ≤ gepb.getD i 0)
    (x y : Nat) (st : AState) (hx : x < n) (hy : y < n)
    (hinv : aInv mat a b n x y st) :
    aInv mat a b n x (y + 1)
      (acell mat a b gopa gepa gopb gepb n n 0 0 n n st x y) := by
  obtain ⟨hB, hD, hH⟩ := hinv
  have hIx1 : aIx1 st x y ≤ aDiag mat a b (min x y) := by
    unfold aIx1
    split_ifs with h0
    · calc st.mIx (x - 1, y) ≤ aDiag mat a b (min (x - 1) y) :=
        (hB (x - 1) y (by omega) hy (Or.inl (by omega))).2.1
      _ ≤ aDiag mat a b (min x y) := aDiag_mono mat a b hsc0 (by omega)
    · exact aDiag_nonneg mat a b hsc0 (min x y)
  have hIy1 : aIy1 st x y ≤ aDiag mat a b (min x y) := by
    unfold aIy1
    split_ifs with h0
    · calc st.mIy (x, y - 1) ≤ aDiag mat a b (min x (y - 1)) :=
        (hB x (y - 1) hx (by omega) (Or.inr ⟨rfl, by omega⟩)).2.2
      _ ≤ aDiag mat a b (min x y) := aDiag_mono mat a b hsc0 (by omega)
    · exact aDiag_nonneg mat a b hsc0 (min x y)
  have hM : aM mat a b st x y ≤ aDiag mat a b (min x y) := by
    unfold aM
    split_ifs with h0
    · have hBp := (hB (x - 1) (y - 1) (by omega) (by omega) (Or.inl (by omega))).1
      have hmin : min (x - 1) (y - 1) = min x y - 1 := by omega
      rw [hmin] at hBp
      rw [aDiag_step mat a b (min x y) (by omega)]
      have := hscd x y
      rw [show min x y = (min x y - 1) + 1 by omega] at this
      rw [show (min x y - 1) + 1 = min x y by omega] at this
      linarith
    · have hmin0 : min x y = 0 := by omega
      rw [hmin0]
      have := hscd x y
      rw [hmin0] at this
      exact this
  have hSle : (aST mat a b st x y).1 ≤ aDiag mat a b (min x y) := by
    rcases aST_fst_cases mat a b st x y with h | h | h <;> rw [h]
    · exact hM
    · exact hIx1
    · exact hIy1
  rw [acell_eq]
  refine ⟨?_, ?_, ?_⟩
  · intro p q hp hq hproc
    rcases dProc_succ hproc with ⟨hax, hby⟩ | hold
    · subst hax
      subst hby
      simp only [upd, if_pos rfl]
      refine ⟨hSle, ?_, ?_⟩
      · refine max_le ?_ ?_
        · have hg : (0 : ℚ) ≤ (if p < n - 1 then gopa.getD p 0 else 0) := by
            split_ifs
            · exact hgopa p
            · exact le_refl 0
          linarith
        · have := hgepa p
          linarith
      · refine max_le ?_ ?_
        · have hg : (0 : ℚ) ≤ (if q < n - 1 then gopb.getD q 0 else 0) := by
            split_ifs
            · exact hgopb q
            · exact le_refl 0
          linarith
        · have := hgepb q
          linarith
    · have hne : ¬ ((p, q) = (x, y)) := by
        intro hcon
        rw [Prod.mk.injEq] at hcon
        rcases hold with h | ⟨_, h⟩ <;> omega
      simp only [upd, if_neg hne]
      exact hB p q hp hq hold
  · intro k hk hproc
    rcases dProc_succ hproc with ⟨hax, hby⟩ | hold
    · subst hax
      have hyk : y = k := hby.symm
      rw [hyk] at hIx1 hIy1 hM
      simp only [min_self] at hIx1 hIy1 hM
      have hMeq : aM mat a b st k k = aDiag mat a b k := by
        unfold aM
        split_ifs with h0
        · rw [(hD (k - 1) (by omega) (Or.inl (by omega))).1]
          rw [aDiag_step mat a b k (by omega)]
          ring
        · have hk0 : k = 0 := by omega
          subst hk0
          rfl
      have hst := aST_eq_M mat a b st k k (by rw [hMeq]; exact hIx1)
        (by rw [hMeq]; exact hIy1)
      have heq : ((k, k) : Nat × Nat) = (k, y) := by rw [hyk]
      simp only [upd, if_pos heq]
      rw [hyk, hst]
      exact ⟨hMeq, rfl⟩
    · have hne : ¬ ((k, k) = (x, y)) := by
        intro hcon
        rw [Prod.mk.injEq] at hcon
        rcases hold with h | ⟨_, h⟩ <;> omega
      simp only [upd, if_neg hne]
      exact hD k hk hold
  · by_cases hcond : (x = n - 1 ∨ y = n - 1) ∧ st.high ≤ (aST mat a b st x y).1
    · simp only [if_pos hcond]
      show (aST mat a b st x y).1 ≤ aDiag mat a b (n - 1)
      calc (aST mat a b st x y).1 ≤ aDiag mat a b (min x y) := hSle
        _ ≤ aDiag mat a b (n - 1) := aDiag_mono mat a b hsc0 (by omega)
    · simp only [if_neg hcond]
      exact hH

/-- At a processed-diagonal scan point the chosen pair of the diagonal
cell is exact. -/
theorem aST_diag (mat : Nat → Nat → ℚ) (a b : List Entry) (n : Nat)
    (hsc0 : ∀ k, 0 ≤ score mat a b k k) (k : Nat) (st : AState)
    (hk : k < n) (hinv : aInv mat a b n k k st) :
    aST mat a b st k k = (aDiag mat a b k, 0) := by
  obtain ⟨hB, hD, hH⟩ := hinv
  have hIx1 : aIx1 st k k ≤ aDiag mat a b k := by
    unfold aIx1
    split_ifs with h0
    · calc st.mIx (k - 1, k) ≤ aDiag mat a b (min (k - 1) k) :=
        (hB (k - 1) k (by omega) hk (Or.inl (by omega))).2.1
      _ ≤ aDiag mat a b k := aDiag_mono mat a b hsc0 (by omega)
    · exact aDiag_nonneg mat a b hsc0 k
  have hIy1 : aIy1 st k k ≤ aDiag mat a b k := by
    unfold aIy1
    split_ifs with h0
    · calc st.mIy (k, k - 1) ≤ aDiag mat a b (min k (k - 1)) :=
        (hB k (k - 1) hk (by omega) (Or.inr ⟨rfl, by omega⟩)).2.2
      _ ≤ aDiag mat a b k := aDiag_mono mat a b hsc0 (by omega)
    · exact aDiag_nonneg mat a b hsc0 k
  have hMeq : aM mat a b st k k = aDiag mat a b k := by
    unfold aM
    split_ifs with h0
    · rw [(hD (k - 1) (by omega) (Or.inl (by omega))).1]
      rw [aDiag_step mat a b k (by omega)]
      ring
    · have hk0 : k = 0 := by omega
      subst hk0
      rfl
  rw [aST_eq_M mat a b st k k (by rw [hMeq]; exact hIx1) (by rw [hMeq]; exact hIy1)]
  rw [hMeq]

/-- The bottom-right corner cell of the alignment rectangle records itself
as the best boundary cell and closes the all-zero traceback diagonal. -/
theorem acell_corner (mat : Nat → Nat → ℚ) (a b : List Entry)
    (gopa gepa gopb gepb : List ℚ) (n : Nat)
    (hsc0 : ∀ k, 0 ≤ score mat a b k k) (st : AState) (hn : 0 < n)
    (hinv : aInv mat a b n (n - 1) (n - 1) st) :
    (acell mat a b gopa gepa gopb gepb n n 0 0 n n st (n - 1) (n - 1)).highX
        = n - 1 ∧
    (acell mat a b gopa gepa gopb gepb n n 0 0 n n st (n - 1) (n - 1)).highY
        = n - 1 ∧
    (∀ k, k < n →
      (acell mat a b gopa gepa gopb gepb n n 0 0 n n st (n - 1) (n - 1)).tb
        (k, k) = 0) := by
  have hdiag := aST_diag mat a b n hsc0 (n - 1) st (by omega) hinv
  obtain ⟨hB, hD, hH⟩ := hinv
  have hcond : ((n - 1 = n - 1 ∨ n - 1 = n - 1) ∧
      st.high ≤ (aST mat a b st (n - 1) (n - 1)).1) := by
    refine ⟨Or.inl rfl, ?_⟩
    rw [hdiag]
    exact hH
  rw [acell_eq]
  refine ⟨?_, ?_, ?_⟩
  · show (if ((n - 1 = n - 1 ∨ n - 1 = n - 1) ∧
        st.high ≤ (aST mat a b st (n - 1) (n - 1)).1) then
        ((aST mat a b st (n - 1) (n - 1)).1, n - 1, n - 1)
      else (st.high, st.highX, st.highY)).2.1 = n - 1
    rw [if_pos hcond]
  · show (if ((n - 1 = n - 1 ∨ n - 1 = n - 1) ∧
        st.high ≤ (aST mat a b st (n - 1) (n - 1)).1) then
        ((aST mat a b st (n - 1) (n - 1)).1, n - 1, n - 1)
      else (st.high, st.highX, st.highY)).2.2 = n - 1
    rw [if_pos hcond]
  · intro k hk
    show upd st.tb (n - 1, n - 1) (aST mat a b st (n - 1) (n - 1)).2 (k, k) = 0
    unfold upd
    by_cases hke : ((k, k) : Nat × Nat) = (n - 1, n - 1)
    · rw [if_pos hke, hdiag]
    · rw [if_neg hke]
      have hklt : k < n - 1 := by
        rw [Prod.mk.injEq] at hke
        omega
      exact (hD k hk (Or.inl hklt)).2

/-- Lifting the alignment cell invariant through one DP column. -/
theorem acolGo_inv (mat : Nat → Nat → ℚ) (a b : List Entry)
    (gopa gepa gopb gepb : List ℚ) (n : Nat)
    (hscd : ∀ x y, score mat a b x y ≤ score mat a b (min x y) (min x y))
    (hsc0 : ∀ k, 0 ≤ score mat a b k k)
    (hgopa : ∀ i, 0 ≤ gopa.getD i 0) (hgepa : ∀ i, 0 ≤ gepa.getD i 0)
    (hgopb : ∀ i, 0 ≤ gopb.getD i 0) (hgepb : ∀ i, 0 ≤ gepb.getD i 0)
    (x : Nat) (hx : x < n) :
    ∀ (k y : Nat) (st : AState), y + k ≤ n →
      aInv mat a b n x y st →
      aInv mat a b n x (y + k)
        (acolGo mat a b gopa gepa gopb gepb n n 0 0 n n x st y k) := by
  intro k
  induction k with
  | zero => intro y st _ hinv; exact hinv
  | succ k ih =>
    intro y st h1 hinv
    have hy : y < n := by omega
    have hcell := acell_inv mat a b gopa gepa gopb gepb n hscd hsc0 hgopa hgepa
      hgopb hgepb x y st hx hy hinv
    have hrec := ih (y + 1) (acell mat a b gopa gepa gopb gepb n n 0 0 n n st x y)
      (by omega) hcell
    have heq : y + 1 + k = y + (k + 1) := by omega
    rw [heq] at hrec
    exact hrec

/-- Moving the alignment scan to the head of the next column. -/
theorem aInv_shift (mat : Nat → Nat → ℚ) (a b : List Entry) (n : Nat)
    {x : Nat} {st : AState} (h : aInv mat a b n x n st) :
    aInv mat a b n (x + 1) 0 st := by
  obtain ⟨hB, hD, hH⟩ := h
  refine ⟨?_, ?_, hH⟩
  · intro p q hp hq hproc
    rcases hproc with h1 | ⟨_, h1⟩
    · rcases Nat.lt_or_ge p x with h2 | h2
      · exact hB p q hp hq (Or.inl h2)
      · exact hB p q hp hq (Or.inr ⟨by omega, hq⟩)
    · omega
  · intro k hk hproc
    rcases hproc with h1 | ⟨_, h1⟩
    · rcases Nat.lt_or_ge k x with h2 | h2
      · exact hD k hk (Or.inl h2)
      · exact hD k hk (Or.inr ⟨by omega, hk⟩)
    · omega

/-- Lifting the alignment invariant through a block of full DP columns. -/
theorem arectGo_inv (mat : Nat → Nat → ℚ) (a b : List Entry)
    (gopa gepa gopb gepb : List ℚ) (n : Nat)
    (hscd : ∀ x y, score mat a b x y ≤ score mat a b (min x y) (min x y))
    (hsc0 : ∀ k, 0 ≤ score mat a b k k)
    (hgopa : ∀ i, 0 ≤ gopa.getD i 0) (hgepa : ∀ i, 0 ≤ gepa.getD i 0)
    (hgopb : ∀ i, 0 ≤ gopb.getD i 0) (hgepb : ∀ i, 0 ≤ gepb.getD i 0) :
    ∀ (j x : Nat) (st : AState), x + j ≤ n →
      aInv mat a b n x 0 st →
      aInv mat a b n (x + j) 0
        (arectGo mat a b gopa gepa gopb gepb n n 0 0 n n st x j) := by
  intro j
  induction j with
  | zero => intro x st _ hinv; exact hinv
  | succ j ih =>
    intro x st h1 hinv
    have hx : x < n := by omega
    have hcol := acolGo_inv mat a b gopa gepa gopb gepb n hscd hsc0 hgopa hgepa
      hgopb hgepb x hx n 0 st (by omega) hinv
    have hcol0 : aInv mat a b n x n
        (acolGo mat a b gopa gepa gopb gepb n n 0 0 n n x st 0 n) := by
      have heq : 0 + n = n := by omega
      rw [heq] at hcol
      exact hcol
    have hshift := aInv_shift mat a b n hcol0
    have hrec := ih (x + 1)
      (acolGo mat a b gopa gepa gopb gepb n n 0 0 n n x st 0 n)
      (by omega) hshift
    have heq2 : x + 1 + j = x + (j + 1) := by omega
    rw [heq2] at hrec
    show aInv mat a b n (x + (j + 1)) 0
      (arectGo mat a b gopa gepa gopb gepb n n 0 0 n n
        (acolGo mat a b gopa gepa gopb gepb n n 0 0 n n x st 0 (n - 0)) (x + 1) j)
    have hs0 : n - 0 = n := rfl
    rw [hs0]
    exact hrec

/-- Splitting the last cell off an alignment column run. -/
theorem acolGo_succ (mat : Nat → Nat → ℚ) (a b : List Entry)
    (gopa gepa gopb gepb : List ℚ) (n x : Nat) :
    ∀ (k y : Nat) (st : AState),
      acolGo mat a b gopa gepa gopb gepb n n 0 0 n n x st y (k + 1) =
        acell mat a b gopa gepa gopb gepb n n 0 0 n n
          (acolGo mat a b gopa gepa gopb gepb n n 0 0 n n x st y k) x (y + k) := by
  intro k
  induction k with
  | zero => intro y st; rfl
  | succ k ih =>
    intro y st
    show acolGo mat a b gopa gepa gopb gepb n n 0 0 n n x
      (acell mat a b gopa gepa gopb gepb n n 0 0 n n st x y) (y + 1) (k + 1) = _
    rw [ih (y + 1) (acell mat a b gopa gepa gopb gepb n n 0 0 n n st x y)]
    have heq : y + 1 + k = y + (k + 1) := by omega
    rw [heq]
    rfl

/-- Splitting the last column off an alignment rectangle run. -/
theorem arectGo_succ (mat : Nat → Nat → ℚ) (a b : List Entry)
    (gopa gepa gopb gepb : List ℚ) (n : Nat) :
    ∀ (k x : Nat) (st : AState),
      arectGo mat a b gopa gepa gopb gepb n n 0 0 n n st x (k + 1) =
        acolGo mat a b gopa gepa gopb gepb n n 0 0 n n (x + k)
          (arectGo mat a b gopa gepa gopb gepb n n 0 0 n n st x k) 0 (n - 0) := by
  intro k
  induction k with
  | zero => intro x st; rfl
  | succ k ih =>
    intro x st
    show arectGo mat a b gopa gepa gopb gepb n n 0 0 n n
      (acolGo mat a b gopa gepa gopb gepb n n 0 0 n n x st 0 (n - 0)) (x + 1)
        (k + 1) = _
    rw [ih (x + 1) (acolGo mat a b gopa gepa gopb gepb n n 0 0 n n x st 0 (n - 0))]
    have heq : x + 1 + k = x + (k + 1) := by omega
    rw [heq]
    rfl

/-- The full self-alignment rectangle ends with the corner as the best
boundary cell and an all-zero traceback diagonal. -/
theorem arect_full (mat : Nat → Nat → ℚ) (a b : List Entry)
    (gopa gepa gopb gepb : List ℚ) (n : Nat)
    (hscd : ∀ x y, score mat a b x y ≤ score mat a b (min x y) (min x y))
    (hsc0 : ∀ k, 0 ≤ score mat a b k k)
    (hgopa : ∀ i, 0 ≤ gopa.getD i 0) (hgepa : ∀ i, 0 ≤ gepa.getD i 0)
    (hgopb : ∀ i, 0 ≤ gopb.getD i 0) (hgepb : ∀ i, 0 ≤ gepb.getD i 0)
    (hn : 0 < n) (st0 : AState) (hinv : aInv mat a b n 0 0 st0) :
    (arectGo mat a b gopa gepa gopb gepb n n 0 0 n n st0 0 n).highX = n - 1 ∧
    (arectGo mat a b gopa gepa gopb gepb n n 0 0 n n st0 0 n).highY = n - 1 ∧
    (∀ k, k < n →
      (arectGo mat a b gopa gepa gopb gepb n n 0 0 n n st0 0 n).tb (k, k) = 0) := by
  have hone : n - 1 + 1 = n := by omega
  have hsp := arectGo_succ mat a b gopa gepa gopb gepb n (n - 1) 0 st0
  simp only [Nat.sub_zero, Nat.zero_add, hone] at hsp
  rw [hsp]
  have hcs := acolGo_succ mat a b gopa gepa gopb gepb n (n - 1) (n - 1) 0
    (arectGo mat a b gopa gepa gopb gepb n n 0 0 n n st0 0 (n - 1))
  simp only [Nat.zero_add, hone] at hcs
  rw [hcs]
  have hrect := arectGo_inv mat a b gopa gepa gopb gepb n hscd hsc0 hgopa hgepa
    hgopb hgepb (n - 1) 0 st0 (by omega) hinv
  simp only [Nat.zero_add] at hrect
  have hcol := acolGo_inv mat a b gopa gepa gopb gepb n hscd hsc0 hgopa hgepa
    hgopb hgepb (n - 1) (by omega) (n - 1) 0 _ (by omega) hrect
  simp only [Nat.zero_add] at hcol
  exact acell_corner mat a b gopa gepa gopb gepb n hsc0 _ hn hcol

/-- Writing an empty row range leaves the traceback matrix unchanged. -/
theorem tbSetRow_empty (tb : Nat × Nat → Int) (y lo hi : Nat) (v : Int)
    (h : hi ≤ lo) : tbSetRow tb y lo hi v = tb := by
  unfold tbSetRow
  rw [show hi - lo = 0 by omega]
  rfl

/-- Writing an empty column range leaves the traceback matrix unchanged. -/
theorem tbSetCol_empty (tb : Nat × Nat → Int) (x lo hi : Nat) (v : Int)
    (h : hi ≤ lo) : tbSetCol tb x lo hi v = tb := by
  unfold tbSetCol
  rw [show hi - lo = 0 by omega]
  rfl

/-- A traceback over an all-zero diagonal walks back to the origin and
inserts no gaps. -/
theorem traceGo_diag (tb : Nat × Nat → Int) (a b : List Entry) :
    ∀ (m fuel : Nat), m + 1 ≤ fuel → (∀ j, j < m → tb (j, j) = 0) →
      traceGo tb fuel ((m : Int) - 1) ((m : Int) - 1) a b = some (a, b) := by
  intro m
  induction m with
  | zero =>
    intro fuel hf hd
    rcases fuel with _ | f
    · omega
    · show traceGo tb (f + 1) (((0 : Nat) : Int) - 1) (((0 : Nat) : Int) - 1) a b
        = some (a, b)
      unfold traceGo
      rw [if_neg (by omega)]
      rfl
  | succ m ih =>
    intro fuel hf hd
    rcases fuel with _ | f
    · omega
    · have hc : (((m + 1 : Nat) : Int) - 1) = (m : Int) := by push_cast; ring
      rw [hc]
      show traceGo tb (f + 1) (m : Int) (m : Int) a b = some (a, b)
      unfold traceGo
      rw [if_pos (by constructor <;> omega)]
      have ht : tb ((m : Int).toNat, (m : Int).toNat) = 0 := by
        rw [Int.toNat_natCast]
        exact hd m (by omega)
      rw [ht]
      rw [if_neg (by omega), if_neg (by omega), if_pos rfl]
      exact ih f (by omega) (fun j hj => hd j (by omega))

/-- `advanceWindow` halts immediately once the window covers the whole
matrix. -/
theorem advanceWindow_done (pa pb : List Int) (dimX dimY fuel endX endY : Nat)
    (h : ¬(endX < dimX ∨ endY < dimY)) :
    advanceWindow pa pb dimX dimY (fuel + 1) (endX, endY) = (endX, endY) := by
  unfold advanceWindow
  rw [if_pos h]

/-- The unanchored `align` outer loop is a single full rectangle followed
by the empty boundary-forcing passes. -/
theorem aloop_eq (mat : Nat → Nat → ℚ) (a b : List Entry)
    (gopa gepa gopb gepb : List ℚ) (n : Nat) (hn : 0 < n) :
    aloop mat a b gopa gepa gopb gepb [] [] n n (2 * (n + n) + 2) (0, 0, n, n)
      ⟨fun _ => 0, fun _ => 0, fun _ => 0, fun _ => 2, 0, 0, 0⟩ =
    (let R := arectGo mat a b gopa gepa gopb gepb n n 0 0 n n
        ⟨fun _ => 0, upd (fun _ => 0) (0, 0) 0, upd (fun _ => 0) (0, 0) 0,
          fun _ => 2, 0, 0, 0⟩ 0 n
     ({ mB := R.mB
        mIx := R.mIx
        mIy := R.mIy
        tb := (if 0 < n then
            tbSetCol
              (if 0 < n then tbSetRow R.tb (n - 1) (R.highX + 1) n 1 else R.tb)
              (n - 1) (R.highY + 1) n (-1)
          else (if 0 < n then tbSetRow R.tb (n - 1) (R.highX + 1) n 1 else R.tb))
        high := R.high
        highX := R.highX
        highY := R.highY }, n, n)) := by
  rw [show 2 * (n + n) + 2 = (2 * (n + n) + 1) + 1 from rfl]
  unfold aloop
  rw [if_pos (⟨hn, hn⟩ : 0 < n ∧ 0 < n)]
  rw [if_neg (show ¬((0 : Nat) = n ∧ (0 : Nat) = n ∧
    ([] : List Int).getD 0 0 = ([] : List Int).getD 0 0 ∧
    ([] : List Int).getD 0 0 ≠ 0) from fun h => by omega)]
  rw [show n + n + 2 = (n + n + 1) + 1 from rfl]
  rw [advanceWindow_done [] [] n n (n + n + 1) n n (by omega)]
  simp only []
  unfold aloop
  rw [if_neg (show ¬(n < n ∧ n < n) from fun h => absurd h.1 (lt_irrefl n))]
  rfl

/-- A gap-free sequence yields no gap code under `getD` (the default `0`
is not the gap code either). -/
theorem getD_ne_gap (s : List Nat) (hgap : ∀ r ∈ s, r ≠ kSignalGapCode) :
    ∀ x, s.getD x 0 ≠ kSignalGapCode := by
  intro x
  rcases Nat.lt_or_ge x s.length with h | h
  · rw [List.getD_eq_getElem?_getD, List.getElem?_eq_getElem h]
    exact hgap _ (List.getElem_mem h)
  · rw [List.getD_eq_getElem?_getD, List.getElem?_eq_none h]
    decide

/-- The profile score of two copies of one gap-free row is the weighted
matrix score. -/
theorem score_single (mat : Nat → Nat → ℚ) (e : Entry)
    (hgap : ∀ r ∈ e.seq, r ≠ kSignalGapCode) (x y : Nat) :
    score mat [e] [e] x y =
      e.weight * e.weight * mat (e.seq.getD x 0) (e.seq.getD y 0) := by
  unfold score
  simp only [List.foldl_cons, List.foldl_nil, List.length_singleton]
  rw [if_pos ⟨getD_ne_gap e.seq hgap x, getD_ne_gap e.seq hgap y⟩]
  norm_num

/-- Dominance of the single-row profile score. -/
theorem score_single_dom (mat : Nat → Nat → ℚ) (e : Entry)
    (hdom : ∀ i j, mat i j ≤ mat i i ∧ mat i j ≤ mat j j)
    (hgap : ∀ r ∈ e.seq, r ≠ kSignalGapCode) (hw : 0 ≤ e.weight) :
    ∀ x y, score mat [e] [e] x y ≤
      score mat [e] [e] (min x y) (min x y) := by
  intro x y
  rw [score_single mat e hgap, score_single mat e hgap]
  have hw2 : 0 ≤ e.weight * e.weight := mul_nonneg hw hw
  have hm : mat (e.seq.getD x 0) (e.seq.getD y 0) ≤
      mat (e.seq.getD (min x y) 0) (e.seq.getD (min x y) 0) := by
    rcases Nat.le_total x y with h | h
    · rw [min_eq_left h]
      exact (hdom (e.seq.getD x 0) (e.seq.getD y 0)).1
    · rw [min_eq_right h]
      exact (hdom (e.seq.getD x 0) (e.seq.getD y 0)).2
  exact mul_le_mul_of_nonneg_left hm hw2

/-- Non-negativity of the single-row diagonal profile score. -/
theorem score_single_nonneg (mat : Nat → Nat → ℚ) (e : Entry)
    (hpos : ∀ i, 0 < mat i i)
    (hgap : ∀ r ∈ e.seq, r ≠ kSignalGapCode) (hw : 0 ≤ e.weight) :
    ∀ k, 0 ≤ score mat [e] [e] k k := by
  intro k
  rw [score_single mat e hgap]
  exact mul_nonneg (mul_nonneg hw hw) (le_of_lt (hpos _))

/-- `getD` behind `mapIdx` beyond the end of the list. -/
theorem getD_mapIdx_out {α β : Type} (l : List α) (f : Nat → α → β) (i : Nat)
    (d : β) (h : l.length ≤ i) : (l.mapIdx f).getD i d = d := by
  rw [List.getD_eq_getElem?_getD, List.getElem?_mapIdx, List.getElem?_eq_none h]
  rfl

attribute [local semireducible] Rat.add Rat.mul Rat.sub Rat.inv in
/-- Each residue-specific penalty table entry is non-negative. -/
theorem kRSP_nonneg : ∀ q ∈ kResidueSpecificPenalty, 0 ≤ q := by decide

/-- The per-column residue penalty contribution is non-negative. -/
theorem residuePenaltyAt_nonneg (e : Entry) (ix : Nat) :
    0 ≤ residuePenaltyAt e ix := by
  unfold residuePenaltyAt
  split_ifs with h1
  · split <;> norm_num
  · show (0 : ℚ) ≤ if e.seq.getD ix 0 < 20 then
      kResidueSpecificPenalty.getD (e.seq.getD ix 0) 1 else 1
    split_ifs with h2
    · rcases hq : kResidueSpecificPenalty[e.seq.getD ix 0]? with _ | v
      · rw [List.getD_eq_getElem?_getD, hq]
        norm_num
      · rw [List.getD_eq_getElem?_getD, hq]
        exact kRSP_nonneg v (List.getElem?_mem hq)
    · norm_num

/-- The accumulated residue-specific penalties are non-negative. -/
theorem adjInspect_rsp_nonneg (rows : List Entry) (L : Nat) :
    ∀ ix, 0 ≤ (adjInspect rows L).2.1.getD ix 0 := by
  unfold adjInspect
  have key : ∀ (rs : List Entry) (acc : List Nat × List ℚ × List Bool),
      (∀ ix, 0 ≤ acc.2.1.getD ix 0) →
      ∀ ix, 0 ≤ (rs.foldl (fun (acc : List Nat × List ℚ × List Bool) e =>
        (acc.1.mapIdx (fun ix v =>
          if e.seq.getD ix 0 = kSignalGapCode then v + 1 else v),
         acc.2.1.mapIdx (fun ix v => v + residuePenaltyAt e ix),
         hydroGo e.seq L (L + 1) 0 0 acc.2.2)) acc).2.1.getD ix 0 := by
    intro rs
    induction rs with
    | nil => intro acc h ix; exact h ix
    | cons r rs ih =>
      intro acc h ix
      refine ih _ ?_ ix
      intro j
      rcases Nat.lt_or_ge j acc.2.1.length with hj | hj
      · rw [getD_mapIdx acc.2.1 _ j 0 0 hj]
        have := residuePenaltyAt_nonneg r j
        have := h j
        linarith
      · rw [getD_mapIdx_out acc.2.1 _ j 0 hj]
  intro ix
  refine key rows _ ?_ ix
  intro j
  rcases Nat.lt_or_ge j (List.replicate L (0 : ℚ)).length with hj | hj
  · rw [List.getD_eq_getElem?_getD, List.getElem?_eq_getElem hj]
    simp only [List.getElem_replicate]
    norm_num
  · rw [List.getD_eq_getElem?_getD, List.getElem?_eq_none hj]
    norm_num

/-- The factor produced by the gap-adjacency scan is non-negative. -/
theorem dScan_nonneg (gaps : List Nat) (L ix : Nat) :
    ∀ (fuel d : Nat) (q : ℚ), dScan gaps L ix d fuel = some q → 0 ≤ q := by
  intro fuel
  induction fuel with
  | zero => intro d q h; exact absurd h (by unfold dScan; exact Option.noConfusion)
  | succ fuel ih =>
    intro d q h
    unfold dScan at h
    split_ifs at h with hc
    · rw [Option.some.injEq] at h
      rw [← h]
      positivity
    · exact ih (d + 1) q h

/-- Entries of a replicated non-negative value are non-negative under
`getD`. -/
theorem replicate_getD_nonneg (n : Nat) (q : ℚ) (hq : 0 ≤ q) :
    ∀ i, 0 ≤ (List.replicate n q).getD i 0 := by
  intro i
  rcases Nat.lt_or_ge i n with h | h
  · rw [List.getD_eq_getElem?_getD, List.getElem?_replicate, if_pos h]
    exact hq
  · rw [List.getD_eq_getElem?_getD, List.getElem?_replicate,
      if_neg (by omega)]
    norm_num

/-- `adjust_gp` maps non-negative penalty vectors to non-negative penalty
vectors. -/
theorem adjust_gp_nonneg (gop gep : List ℚ) (rows : List Entry)
    (hgop : ∀ i, 0 ≤ gop.getD i 0) (hgep : ∀ i, 0 ≤ gep.getD i 0) :
    (∀ i, 0 ≤ (adjust_gp gop gep rows).1.getD i 0) ∧
    (∀ i, 0 ≤ (adjust_gp gop gep rows).2.getD i 0) := by
  constructor
  · intro i
    show 0 ≤ (gop.mapIdx _).getD i 0
    rcases Nat.lt_or_ge i gop.length with h | h
    · rw [getD_mapIdx gop _ i 0 0 h]
      have hg := hgop i
      split_ifs with h1 h2
      · refine mul_nonneg hg ?_
        positivity
      · refine div_nonneg ?_ (by norm_num)
        rcases hd : dScan (adjInspect rows gop.length).1 gop.length i 0 8
            with _ | q
        · exact hg
        · exact mul_nonneg hg (dScan_nonneg _ _ _ 8 0 q hd)
      · refine mul_nonneg ?_ ?_
        · rcases hd : dScan (adjInspect rows gop.length).1 gop.length i 0 8
              with _ | q
          · exact hg
          · exact mul_nonneg hg (dScan_nonneg _ _ _ 8 0 q hd)
        · exact div_nonneg (adjInspect_rsp_nonneg rows gop.length i)
            (by positivity)
    · rw [getD_mapIdx_out gop _ i 0 h]
  · intro i
    show 0 ≤ (gep.mapIdx _).getD i 0
    rcases Nat.lt_or_ge i gep.length with h | h
    · rw [getD_mapIdx gep _ i 0 0 h]
      have hg := hgep i
      split_ifs with h1
      · positivity
      · exact hg
    · rw [getD_mapIdx_out gep _ i 0 h]

/-- The mean weight of a single-row block. -/
theorem avg_single (e : Entry) :
    (([e] : List Entry).foldl (fun s e => s + e.weight) 0) /
      ((([e] : List Entry).length : Nat) : ℚ) = e.weight := by
  simp

/-- Aligning a gap-free single-row block against an identical copy inserts
no gaps: the traceback is the pure diagonal and both blocks come back
unchanged. -/
theorem align_self (mat : Nat → Nat → ℚ) (gopS gepSA gepSB : ℚ) (e : Entry)
    (ip : Bool)
    (hdom : ∀ i j, mat i j ≤ mat i i ∧ mat i j ≤ mat j j)
    (hpos : ∀ i, 0 < mat i i)
    (hn : 0 < e.seq.length) (hpe : e.positions = [])
    (hgap : ∀ r ∈ e.seq, r ≠ kSignalGapCode) (hw : 0 ≤ e.weight)
    (hgopS : 0 ≤ gopS) (hgepSA : 0 ≤ gepSA) (hgepSB : 0 ≤ gepSB) :
    align mat gopS gepSA gepSB [e] [e] ip = some ([e], [e], [e] ++ [e]) := by
  have hscd := score_single_dom mat e hdom hgap hw
  have hsc0 := score_single_nonneg mat e hpos hgap hw
  have havg := avg_single e
  have hgopA : ∀ i, 0 ≤ (List.replicate e.seq.length
      (gopS * (([e] : List Entry).foldl (fun s e => s + e.weight) 0 /
        ((([e] : List Entry).length : Nat) : ℚ)))).getD i 0 := by
    rw [havg]
    exact replicate_getD_nonneg _ _ (mul_nonneg hgopS hw)
  have hgepA : ∀ i, 0 ≤ (List.replicate e.seq.length
      (gepSA * (([e] : List Entry).foldl (fun s e => s + e.weight) 0 /
        ((([e] : List Entry).length : Nat) : ℚ)))).getD i 0 := by
    rw [havg]
    exact replicate_getD_nonneg _ _ (mul_nonneg hgepSA hw)
  have hgepB : ∀ i, 0 ≤ (List.replicate e.seq.length
      (gepSB * (([e] : List Entry).foldl (fun s e => s + e.weight) 0 /
        ((([e] : List Entry).length : Nat) : ℚ)))).getD i 0 := by
    rw [havg]
    exact replicate_getD_nonneg _ _ (mul_nonneg hgepSB hw)
  have hadjA := adjust_gp_nonneg _ _ [e] hgopA hgepA
  have hadjB := adjust_gp_nonneg _ _ [e] hgopA hgepB
  have hinit : aInv mat [e] [e] e.seq.length 0 0
      ⟨fun _ => 0, upd (fun _ => 0) (0, 0) 0, upd (fun _ => 0) (0, 0) 0,
        fun _ => 2, 0, 0, 0⟩ := by
    refine ⟨?_, ?_, ?_⟩
    · intro p q _ _ hproc
      rcases hproc with h | ⟨_, h⟩ <;> omega
    · intro k _ hproc
      rcases hproc with h | ⟨_, h⟩ <;> omega
    · exact aDiag_nonneg mat [e] [e] hsc0 (e.seq.length - 1)
  have hR := arect_full mat [e] [e] _ _ _ _ e.seq.length hscd hsc0
    hadjA.1 hadjA.2 hadjB.1 hadjB.2 hn _ hinit
  obtain ⟨hRX, hRY, hRtb⟩ := hR
  unfold align
  simp only [List.headD_cons]
  simp only [hpe]
  rw [if_pos (show ip = true ∨ ([] : List Int).isEmpty = true ∨
    ([] : List Int).isEmpty = true from Or.inr (Or.inl rfl))]
  simp only []
  rw [aloop_eq mat [e] [e] _ _ _ _ e.seq.length hn]
  simp only []
  have hrow : ∀ tb : Nat × Nat → Int,
      tbSetRow tb (e.seq.length - 1) (e.seq.length - 1 + 1) e.seq.length 1 = tb :=
    fun tb => tbSetRow_empty _ _ _ _ _ (by omega)
  have hcol : ∀ tb : Nat × Nat → Int,
      tbSetCol tb (e.seq.length - 1) (e.seq.length - 1 + 1) e.seq.length (-1)
        = tb :=
    fun tb => tbSetCol_empty _ _ _ _ _ (by omega)
  have hif : ∀ t f : Nat × Nat → Int,
      (if 0 < e.seq.length then t else f) = t := fun t f => if_pos hn
  simp only [hRX, hRY, hif, hrow, hcol]
  rw [traceGo_diag _ [e] [e] e.seq.length (e.seq.length + e.seq.length + 2)
    (by omega) hRtb]
  simp only []
  rw [if_neg (by simp)]

/-- C3: identity round-trip.  For a dominant substitution matrix (every
entry at most both of its diagonal entries, positive diagonal - the shape
of the GONNET250 data, which lives outside the given sources), a gap-free
entry with no position anchors and non-negative weight and gap costs:
`calculateDistance(e, e) = 0`, and `align` on two copies of the
single-row block returns both rows unchanged (the traceback is the pure
diagonal; no gap is inserted on either side). -/
theorem C3_identity_roundtrip (mat : Nat → Nat → ℚ) (gopS gepSA gepSB : ℚ)
    (e : Entry) (ip : Bool)
    (hdom : ∀ i j, mat i j ≤ mat i i ∧ mat i j ≤ mat j j)
    (hpos : ∀ i, 0 < mat i i)
    (hn : 0 < e.seq.length) (hpe : e.positions = [])
    (hgap : ∀ r ∈ e.seq, r ≠ kSignalGapCode) (hw : 0 ≤ e.weight)
    (hgopS : 0 ≤ gopS) (hgepSA : 0 ≤ gepSA) (hgepSB : 0 ≤ gepSB) :
    calculateDistance mat e.seq e.seq e.positions e.positions = 0 ∧
    align mat gopS gepSA gepSB [e] [e] ip = some ([e], [e], [e] ++ [e]) := by
  constructor
  · rw [hpe]
    unfold calculateDistance
    rw [distHighId_self mat e.seq hdom hpos hn, max_self]
    have hne : ((e.seq.length : Nat) : ℚ) ≠ 0 := Nat.cast_ne_zero.mpr (by omega)
    field_simp
  · exact align_self mat gopS gepSA gepSB e ip hdom hpos hn hpe hgap hw
      hgopS hgepSA hgepSB

/-- C3 witness: the round-trip at the identity matrix and the entry
`[0, 1]` of weight 1. -/
theorem C3_identity_roundtrip_witness :
    ((∀ i j : Nat, (if i = j then (1 : ℚ) else 0) ≤
        (if i = i then (1 : ℚ) else 0) ∧
      (if i = j then (1 : ℚ) else 0) ≤ (if j = j then (1 : ℚ) else 0)) ∧
      (∀ r ∈ ([0, 1] : List Nat), r ≠ kSignalGapCode)) ∧
    (calculateDistance (fun i j => if i = j then (1 : ℚ) else 0)
        (Entry.mk [0, 1] [] [] 1).seq (Entry.mk [0, 1] [] [] 1).seq
        (Entry.mk [0, 1] [] [] 1).positions
        (Entry.mk [0, 1] [] [] 1).positions = 0 ∧
      align (fun i j => if i = j then (1 : ℚ) else 0) 1 1 1
        [Entry.mk [0, 1] [] [] 1] [Entry.mk [0, 1] [] [] 1] false =
        some ([Entry.mk [0, 1] [] [] 1], [Entry.mk [0, 1] [] [] 1],
          [Entry.mk [0, 1] [] [] 1] ++ [Entry.mk [0, 1] [] [] 1])) :=
  ⟨⟨fun i j => by split_ifs <;> simp_all, by decide⟩,
    C3_identity_roundtrip (fun i j => if i = j then (1 : ℚ) else 0) 1 1 1
      (Entry.mk [0, 1] [] [] 1) false
      (fun i j => by dsimp only; split_ifs <;> simp_all)
      (fun i => by dsimp only; rw [if_pos rfl]; norm_num)
      (by decide) rfl (by decide) (by norm_num) (by norm_num) (by norm_num)
      (by norm_num)⟩

attribute [local semireducible] Rat.add Rat.mul Rat.sub Rat.inv in
set_option maxRecDepth 100000 in
/-- C2 counterexample: on the sequence pair `[1,2,0,1,1,0]` and
`[1,0,0,0,1,0]` (no position anchors) under the Gonnet-shaped matrix
`c2mat`, the accumulated identical-column count reaches 7, exceeding
`max(|a|,|b|) = 6`, so `calculateDistance` returns `1 - 7/6 < 0` and the
asserted postcondition `result >= 0` fails. -/
theorem C2_counterexample :
    distHighId c2mat [1, 2, 0, 1, 1, 0] [1, 0, 0, 0, 1, 0] [] [] = 7 ∧
    7 > max ([1, 2, 0, 1, 1, 0] : List Nat).length ([1, 0, 0, 0, 1, 0] : List Nat).length ∧
    calculateDistance c2mat [1, 2, 0, 1, 1, 0] [1, 0, 0, 0, 1, 0] [] [] < 0 := by
  refine ⟨by decide, by decide, by decide⟩

/-- C2 (amended): the upper bound holds unconditionally - for every matrix,
every pair of sequences and any position vectors, `calculateDistance`
returns at most 1, because the identity count is non-negative; the lower
bound `0 ≤ result` is not guaranteed by the algorithm (see the
counterexample, whose matrix has the qualitative shape of GONNET250). -/
theorem C2_distance_at_most_one (mat : Nat → Nat → ℚ) (sa sb : List Nat)
    (pa pb : List Int) : calculateDistance mat sa sb pa pb ≤ 1 := by
  unfold calculateDistance
  have h : (0 : ℚ) ≤ (distHighId mat sa sb pa pb : ℚ) /
      ((max sa.length sb.length : Nat) : ℚ) :=
    div_nonneg (Nat.cast_nonneg _) (Nat.cast_nonneg _)
  linarith

/-- C7: `insert_gap(pos)` splices exactly one gap code at index
`min pos len` (appending when `pos` exceeds the length), splices a 0 into
a present positions vector at the same index, and so preserves equality of
the two lengths. -/
theorem C7_insert_gap_spec (e : Entry) (pos : Nat)
    (h : e.positions = [] ∨ e.positions.length = e.seq.length) :
    (insert_gap e pos).seq =
      e.seq.insertIdx (min pos e.seq.length) kSignalGapCode ∧
    (insert_gap e pos).seq.length = e.seq.length + 1 ∧
    (insert_gap e pos).positions =
      (if e.positions = [] then ([] : List Int)
       else e.positions.insertIdx (min pos e.seq.length) 0) ∧
    (e.positions ≠ [] →
      (insert_gap e pos).positions.length = (insert_gap e pos).seq.length) := by
  unfold insert_gap
  by_cases hp : pos > e.seq.length
  · have hmin : min pos e.seq.length = e.seq.length := by omega
    rw [if_pos hp, hmin]
    by_cases hem : e.positions = []
    · simp [hem, List.insertIdx_length_self]
    · have hie : e.positions.isEmpty = false := by
        simpa [List.isEmpty_iff] using hem
      have hpl : e.positions.length = e.seq.length := by
        rcases h with h | h
        · exact absurd h hem
        · exact h
      refine ⟨by simp [List.insertIdx_length_self], by simp, ?_, ?_⟩
      · rw [hie]
        simp only [Bool.false_eq_true, if_false, if_neg hem, ← hpl,
          List.insertIdx_length_self]
      · intro _
        simp [hie, hpl, List.insertIdx_length_self]
  · have hle : pos ≤ e.seq.length := by omega
    have hmin : min pos e.seq.length = pos := by omega
    rw [if_neg hp, hmin]
    by_cases hem : e.positions = []
    · simp [hem, List.length_insertIdx _ _ hle]
    · have hie : e.positions.isEmpty = false := by
        simpa [List.isEmpty_iff] using hem
      have hpl : e.positions.length = e.seq.length := by
        rcases h with h | h
        · exact absurd h hem
        · exact h
      refine ⟨rfl, by simp [List.length_insertIdx _ _ hle], ?_, ?_⟩
      · rw [hie]
        simp [if_neg hem]
      · intro _
        simp only [hie, Bool.false_eq_true, if_false]
        rw [List.length_insertIdx _ _ (by omega),
          List.length_insertIdx _ _ hle, hpl]

/-- C7 witness: the insertion law at a concrete entry. -/
theorem C7_insert_gap_spec_witness :
    (([3, 4] : List Int) = [] ∨ ([3, 4] : List Int).length =
      ([0, 1] : List Nat).length) ∧
    ((insert_gap ⟨[0, 1], [3, 4], [], 1⟩ 1).seq =
      ([0, 1] : List Nat).insertIdx (min 1 ([0, 1] : List Nat).length)
        kSignalGapCode ∧
    (insert_gap ⟨[0, 1], [3, 4], [], 1⟩ 1).seq.length =
      ([0, 1] : List Nat).length + 1 ∧
    (insert_gap ⟨[0, 1], [3, 4], [], 1⟩ 1).positions =
      (if ([3, 4] : List Int) = [] then ([] : List Int)
       else ([3, 4] : List Int).insertIdx (min 1 ([0, 1] : List Nat).length) 0) ∧
    (([3, 4] : List Int) ≠ [] →
      (insert_gap ⟨[0, 1], [3, 4], [], 1⟩ 1).positions.length =
        (insert_gap ⟨[0, 1], [3, 4], [], 1⟩ 1).seq.length)) :=
  ⟨Or.inr (by decide), C7_insert_gap_spec ⟨[0, 1], [3, 4], [], 1⟩ 1 (Or.inr (by decide))⟩

/-- C10: `remove_gaps` takes its forbidden branch (the `assert(false)`)
exactly when the sequence length equals the positions-vector length - in
particular for an empty sequence with no positions vector - and otherwise
removes every gap code, keeps the remaining residues in order (a sublist),
and leaves the positions vector untouched. -/
theorem C10_remove_gaps_spec (e : Entry) :
    (remove_gaps e = none ↔ e.seq.length = e.positions.length) ∧
    (e.seq.length ≠ e.positions.length →
      ∃ e', remove_gaps e = some e' ∧
        e'.seq = e.seq.filter (fun r => r ≠ kSignalGapCode) ∧
        e'.seq.Sublist e.seq ∧
        (∀ r ∈ e'.seq, r ≠ kSignalGapCode) ∧
        e'.positions = e.positions ∧ e'.ss = e.ss ∧ e'.weight = e.weight) := by
  constructor
  · unfold remove_gaps
    split_ifs with h
    · simpa using h
    · simpa using h
  · intro h
    refine ⟨{ e with seq := e.seq.filter (fun r => r ≠ kSignalGapCode) },
      by unfold remove_gaps; rw [if_neg h], rfl, List.filter_sublist _, ?_,
      rfl, rfl, rfl⟩
    intro r hr
    have := List.of_mem_filter hr
    simpa using this

/-- C10 witness: the characterization at a concrete entry with one gap. -/
theorem C10_remove_gaps_spec_witness :
    ((remove_gaps ⟨[1, 22, 2], [], [], 1⟩ = none ↔
      ([1, 22, 2] : List Nat).length = ([] : List Int).length) ∧
    (([1, 22, 2] : List Nat).length ≠ ([] : List Int).length →
      ∃ e', remove_gaps ⟨[1, 22, 2], [], [], 1⟩ = some e' ∧
        e'.seq = ([1, 22, 2] : List Nat).filter (fun r => r ≠ kSignalGapCode) ∧
        e'.seq.Sublist [1, 22, 2] ∧
        (∀ r ∈ e'.seq, r ≠ kSignalGapCode) ∧
        e'.positions = ([] : List Int) ∧ e'.ss = ([] : List Char) ∧
        e'.weight = 1)) :=
  C10_remove_gaps_spec ⟨[1, 22, 2], [], [], 1⟩

end Mas

end Xssp
